import Mathlib

/-!
# PerfectCircle: the stroke session and the circle fitter of `src/main.go`

A shallow embedding of `game.start`, `game.update`, `dist`, `circleFromPoints`,
`distToSegment` and `distSquared`, and proofs about them.

Modelling decisions.

* `float64` is idealised as a linear ordered field `F` (exact arithmetic, no rounding,
  no overflow).  `math.Sqrt` and the `%v` rendering of a `float64` are the two library
  functions the program imports; they are the two fields of `Env`.  Facts that depend on
  what a square root is take `SqrtSpec E.Sqrt` as a hypothesis; the real numbers with
  `Real.sqrt` satisfy it.
* The only float64 expression of the program whose divisor can be zero is the quality
  formula of `circleFromPoints`.  Its value is an `fval`: a finite number, an infinity
  or NaN, computed by the IEEE-754 rules for division by zero.
* `time.Time` is an instant in nanoseconds (`Int`); its zero value is `zeroTime`.
  `time.Since` is the saturating `int64` difference of `time.Time.Sub`.  `update` reads
  the clock twice (`time.Since` on line 49, `time.Now` on line 57); both readings are
  arguments.
* `errors.New(msg)` is `some msg`, the `nil` error is `none`.
* Exact arithmetic and `float64` disagree where the program compares two numbers that are
  equal as real numbers: the containment test `dist > radius` at the end points of the
  fitted diameter.  For that question the fitter is embedded a second time over binary64
  (`rnd`, `fsqrt`, `circleFromPoints64`): the values are the rationals a `float64` can
  hold, and every operation is the exact one followed by rounding to nearest, ties to
  even.  Overflow, subnormal numbers and the sign of zero are not modelled; none occurs
  on the input evaluated there.  Every operation is rounded on its own; a compiler that
  fuses `x*y + z` gets the same values on that input, where one of the two products of
  every sum of products is 0.
-/

namespace PerfectCircle

/-! ## Data model -/

/-- The Go type `point`: `struct { X float64; Y float64 }`. -/
structure point (F : Type) where
  X : F
  Y : F

/-- The zero value `time.Time{}`, the "unset" sentinel of `lastTime`.  An instant of
`time.Time` is an `Int`, in nanoseconds. -/
def zeroTime : Int := 0

/-- The Go constant `time.Millisecond`, a `time.Duration` in nanoseconds. -/
def Millisecond : Int := 1000000

/-- The smallest `time.Duration` (`math.MinInt64`). -/
def minDuration : Int := -(2 ^ 63)

/-- The largest `time.Duration` (`math.MaxInt64`). -/
def maxDuration : Int := 2 ^ 63 - 1

/-- The Go method `time.Time.Sub`: the difference `t - u`, saturated to the range of a
`time.Duration`. -/
def timeSub (t u : Int) : Int :=
  let d := t - u
  if d < minDuration then minDuration
  else if d > maxDuration then maxDuration
  else d

/-- The Go function `time.Since(t)`, with the clock reading `now` made explicit. -/
def since (now t : Int) : Int := timeSub now t

/-- The Go type `game`. -/
structure game (F : Type) where
  points : List (point F)
  lastPoint : point F
  lastTime : Int
  errorMessage : String
  canvas : String

/-- The library functions on `float64` that the program imports: `math.Sqrt` and the
`%v` verb of `fmt.Sprintf`. -/
structure Env (F : Type) where
  Sqrt : F → F
  fmtV : F → String

/-- What a square root is on the non-negative numbers: it is non-negative and squares back
to its argument. -/
structure SqrtSpec {F : Type} [LinearOrderedField F] (sqrt : F → F) : Prop where
  nonneg : ∀ x, 0 ≤ sqrt x
  mul_self : ∀ x, 0 ≤ x → sqrt x * sqrt x = x

/-- The value of a float64 expression in which a division by zero may have occurred:
a finite number, plus or minus infinity, or NaN. -/
inductive fval (F : Type) where
  | fin (v : F)
  | posInf
  | negInf
  | nan

section ops

variable {F : Type} [LinearOrderedField F]

/-- IEEE-754 `a / b` for finite `a` and a finite divisor `b` that is not a negative
zero: `0 / 0` is NaN and `a / 0` is an infinity with the sign of `a`. -/
def fdiv (a b : F) : fval F :=
  if b = 0 then
    if a = 0 then fval.nan else if 0 < a then fval.posInf else fval.negInf
  else fval.fin (a / b)

/-- IEEE-754 `v / n` for a finite divisor `n` that is not a negative zero. -/
def fval.divFin (v : fval F) (n : F) : fval F :=
  match v with
  | fval.fin a => fdiv a n
  | fval.posInf => if n < 0 then fval.negInf else fval.posInf
  | fval.negInf => if n < 0 then fval.posInf else fval.negInf
  | fval.nan => fval.nan

/-- IEEE-754 `c - v` for a finite `c`. -/
def fval.rsub (c : F) (v : fval F) : fval F :=
  match v with
  | fval.fin a => fval.fin (c - a)
  | fval.posInf => fval.negInf
  | fval.negInf => fval.posInf
  | fval.nan => fval.nan

/-- IEEE-754 `v * c` for a finite `c`. -/
def fval.mulFin (v : fval F) (c : F) : fval F :=
  match v with
  | fval.fin a => fval.fin (a * c)
  | fval.posInf => if 0 < c then fval.posInf else if c < 0 then fval.negInf else fval.nan
  | fval.negInf => if 0 < c then fval.negInf else if c < 0 then fval.posInf else fval.nan
  | fval.nan => fval.nan

/-- IEEE-754 `v < c` for a finite `c`: every comparison with NaN is false. -/
def fval.ltFin (v : fval F) (c : F) : Bool :=
  match v with
  | fval.fin a => decide (a < c)
  | fval.posInf => false
  | fval.negInf => true
  | fval.nan => false

/-- Whether a value is an ordinary finite number. -/
def fval.isFinite (v : fval F) : Bool :=
  match v with
  | fval.fin _ => true
  | _ => false

end ops

/-! ## The program -/

section program

variable {F : Type} [LinearOrderedField F]

/-- The Go function `dist` (lines 86-88). -/
def dist (E : Env F) (x1 y1 x2 y2 : F) : F :=
  E.Sqrt ((x1 - x2) * (x1 - x2) + (y1 - y2) * (y1 - y2))

/-- The Go function `distSquared` (lines 153-157). -/
def distSquared (x1 y1 x2 y2 : F) : F :=
  let dx := x2 - x1
  let dy := y2 - y1
  dx * dx + dy * dy

/-- The Go function `distToSegment` (lines 137-151). -/
def distToSegment (E : Env F) (p v w : point F) : F :=
  let l2 := distSquared v.X v.Y w.X w.Y
  if l2 = 0 then dist E p.X p.Y v.X v.Y
  else
    let t := ((p.X - v.X) * (w.X - v.X) + (p.Y - v.Y) * (w.Y - v.Y)) / l2
    if t < 0 then dist E p.X p.Y v.X v.Y
    else if t > 1 then dist E p.X p.Y w.X w.Y
    else
      let projection : point F := ⟨v.X + t * (w.X - v.X), v.Y + t * (w.Y - v.Y)⟩
      dist E p.X p.Y projection.X projection.Y

/-- The local variables `maxDist`, `p1`, `p2` of `circleFromPoints`. -/
structure scan (F : Type) where
  maxDist : F
  p1 : point F
  p2 : point F

/-- The body of the inner loop of `circleFromPoints` (lines 96-101), for the outer point
`p` and the inner point `q = points[j]`. -/
def scanStep (E : Env F) (p : point F) (s : scan F) (q : point F) : scan F :=
  let d := dist E p.X p.Y q.X q.Y
  if d > s.maxDist then ⟨d, p, q⟩ else s

/-- The nested loops of `circleFromPoints` (lines 94-103): for each point `p` in order,
the inner loop runs over the points after it. -/
def scanPairs (E : Env F) : List (point F) → scan F → scan F
  | [], s => s
  | p :: rest, s => scanPairs E rest (rest.foldl (scanStep E p) s)

/-- The state of `maxDist`, `p1`, `p2` after the loops of lines 92-103. -/
def maxPair (E : Env F) (points : List (point F)) : scan F :=
  scanPairs E points ⟨0, ⟨0, 0⟩, ⟨0, 0⟩⟩

/-- The `center` of `circleFromPoints` (line 106). -/
def fitCenter (E : Env F) (points : List (point F)) : point F :=
  let s := maxPair E points
  ⟨(s.p1.X + s.p2.X) / 2, (s.p1.Y + s.p2.Y) / 2⟩

/-- The `radius` of `circleFromPoints` (line 107). -/
def fitRadius (E : Env F) (points : List (point F)) : F :=
  let s := maxPair E points
  dist E s.p1.X s.p1.Y s.p2.X s.p2.Y / 2

/-- The flag `allInCircle` of `circleFromPoints` (lines 110-116). -/
def allInCircle (E : Env F) (points : List (point F)) : Bool :=
  let center := fitCenter E points
  let radius := fitRadius E points
  points.all fun p => !decide (dist E p.X p.Y center.X center.Y > radius)

/-- The sum `totalDist` of `circleFromPoints` (lines 123-127). -/
def totalDist (E : Env F) (points : List (point F)) : F :=
  let center := fitCenter E points
  (List.range points.length).foldl
    (fun acc i =>
      let j := (i + 1) % points.length
      acc + distToSegment E (points.getD i ⟨0, 0⟩) (points.getD j ⟨0, 0⟩) center)
    0

/-- The sum `T` as the specification words it, for comparison with `totalDist`: over the
edges `points[i]`, `points[(i+1) % n]` of the closed polygon, the distance from `center`
to the segment of the edge. -/
def specTotalDist (E : Env F) (points : List (point F)) (center : point F) : F :=
  (List.range points.length).foldl
    (fun acc i =>
      let j := (i + 1) % points.length
      acc + distToSegment E center (points.getD i ⟨0, 0⟩) (points.getD j ⟨0, 0⟩))
    0

/-- The variable `quality` of `circleFromPoints` (lines 119-129). -/
def quality (E : Env F) (points : List (point F)) : fval F :=
  if allInCircle E points then fval.fin 100
  else
    fval.mulFin
      (fval.rsub 1 (fval.divFin (fdiv (totalDist E points) (fitRadius E points))
        (points.length : F)))
      100

/-- The Go function `circleFromPoints` (lines 90-135): the center, the radius and the
flag `red`. -/
def circleFromPoints (E : Env F) (points : List (point F)) : point F × F × Bool :=
  let center := fitCenter E points
  let radius := fitRadius E points
  let red := fval.ltFin (quality E points) 50
  (center, radius, red)

/-- The canvas markup that `start` installs (line 36). -/
def emptyCanvas : String :=
  "<canvas id=\x22canvas\x22 width=\x22800\x22 height=\x22600\x22></canvas>"

/-- The Go method `game.start` (lines 31-37). -/
def start (_g : game F) : game F :=
  { points := [],
    lastPoint := ⟨0, 0⟩,
    lastTime := zeroTime,
    errorMessage := "",
    canvas := emptyCanvas }

/-- The sum `diff` of `update` (lines 64-67). -/
def radialDiff (E : Env F) (points : List (point F)) (center : point F) (radius : F) : F :=
  points.foldl (fun diff p => diff + |dist E p.X p.Y center.X center.Y - radius|) 0

/-- The variable `percent` of `update` (line 68). -/
def percentOf (E : Env F) (points : List (point F)) (center : point F) (radius : F) : F :=
  100 - (radialDiff E points center radius / (points.length : F)) * 100

/-- The variable `color` of `update` (lines 71-76). -/
def colorOf (percent : F) : String :=
  if percent < 90 then "red"
  else if percent < 95 then "orange"
  else "green"

/-- The string that `fmt.Sprintf` builds on line 79. -/
def circleMarkup (E : Env F) (center : point F) (radius : F) (color : String) : String :=
  "<script>drawCircle(" ++ E.fmtV center.X ++ ", " ++ E.fmtV center.Y ++ ", "
    ++ E.fmtV radius ++ ", \x27" ++ color ++ "\x27);</script>"

/-- The state after the three assignments of lines 55-57. -/
def accepted (g : game F) (x y : F) (tNow : Int) : game F :=
  { g with points := g.points ++ [point.mk x y], lastPoint := point.mk x y, lastTime := tNow }

/-- The Go method `game.update` (lines 39-84).  `tSince` is the clock reading of
`time.Since` (line 49), `tNow` the one of `time.Now` (line 57).  The result is the
state after the call and the returned error. -/
def update (E : Env F) (g : game F) (x y : F) (tSince tNow : Int) :
    game F × Option String :=
  let currentPoint : point F := ⟨x, y⟩
  if dist E currentPoint.X currentPoint.Y g.lastPoint.X g.lastPoint.Y < 10 then
    ({ g with errorMessage := "Too close to last point" }, some "Too close to last point")
  else if g.lastTime ≠ zeroTime ∧ since tSince g.lastTime > Millisecond * 100 then
    ({ g with errorMessage := "Draw faster" }, some "Draw faster")
  else
    let g1 : game F :=
      { g with points := g.points ++ [currentPoint],
               lastPoint := currentPoint,
               lastTime := tNow }
    if g1.points.length ≥ 3 then
      match circleFromPoints E g1.points with
      | (center, radius, ok) =>
        if ok then
          let percent := percentOf E g1.points center radius
          let color := colorOf percent
          ({ g1 with canvas := g1.canvas ++ circleMarkup E center radius color }, none)
        else (g1, none)
    else (g1, none)

/-- The session states that `start` and `update` can produce: the state after a first
`start`, and from there any number of `update` calls (accepted or rejected, with any
coordinates and any clock readings) and further `start` calls. -/
inductive Reachable (E : Env F) : game F → Prop
  | init (g0 : game F) : Reachable E (start g0)
  | update (g : game F) (x y : F) (tSince tNow : Int) :
      Reachable E g → Reachable E (update E g x y tSince tNow).1
  | restart (g : game F) : Reachable E g → Reachable E (start g)

/-- Consecutive entries of a point list are at distance at least 10, the distance taken
from the later entry to the earlier one as `update` computes it. -/
def Spaced (E : Env F) (pts : List (point F)) : Prop :=
  List.Chain' (fun a b => 10 ≤ dist E b.X b.Y a.X a.Y) pts

/-- Three points lie on one line (or two of them coincide): the cross product of the
vectors from the first point to the other two is zero. -/
def collinear (a b c : point F) : Prop :=
  (b.X - a.X) * (c.Y - a.Y) - (b.Y - a.Y) * (c.X - a.X) = 0

/-- The state after a sequence of `update` calls, each given by its coordinates and its
two clock readings. -/
def runUpdates (E : Env F) (g : game F) (calls : List (F × F × Int × Int)) : game F :=
  calls.foldl (fun g c => (update E g c.1 c.2.1 c.2.2.1 c.2.2.2).1) g

/-- A state with every field at its Go zero value, as `var g game` declares it. -/
def zeroGame : game F :=
  { points := [], lastPoint := ⟨0, 0⟩, lastTime := 0, errorMessage := "", canvas := "" }

/-- A concrete session: `start`, then the point (30, 0). -/
def demo1 (E : Env F) : game F := (update E (start zeroGame) 30 0 1000 1000).1

/-- The session `demo1`, then the point (0, 40) one microsecond later. -/
def demo2 (E : Env F) : game F := (update E (demo1 E) 0 40 2000 2000).1

/-- The session `demo2`, then the point (30, 40) one microsecond later: a right triangle
with legs 30 and 40 and hypotenuse 50. -/
def demo3 (E : Env F) : game F := (update E (demo2 E) 30 40 3000 3000).1

/-- A second concrete session: `start`, then the point (30, 40). -/
def iso1 (E : Env F) : game F := (update E (start zeroGame) 30 40 1000 1000).1

/-- The session `iso1`, then the point (90, 40) one microsecond later. -/
def iso2 (E : Env F) : game F := (update E (iso1 E) 90 40 2000 2000).1

/-- The session `iso2`, then the point (60, 80) one microsecond later: an isosceles
triangle with base 60 and two sides of 50, whose apex is 40 above the middle of the
base. -/
def iso3 (E : Env F) : game F := (update E (iso2 E) 60 80 3000 3000).1

end program

/-! ## The fitter in binary64 arithmetic -/

section binary64

/-- Two to an integer power, as a rational. -/
def pow2 (e : Int) : ℚ :=
  if 0 ≤ e then (2 : ℚ) ^ e.toNat else 1 / (2 : ℚ) ^ (-e).toNat

/-- The number of binary digits of `n`; the first argument bounds the recursion. -/
def bitLenAux : Nat → Nat → Nat
  | 0, _ => 0
  | fuel + 1, n => if n = 0 then 0 else bitLenAux fuel (n / 2) + 1

/-- The number of binary digits of `n` (0 for 0). -/
def bitLen (n : Nat) : Nat := bitLenAux n n

/-- The binary exponent of a positive rational `a`: the `e` with
`2 ^ e <= a < 2 ^ (e + 1)`.  The difference of the digit counts of numerator and
denominator is `e` or `e + 1`; one comparison decides. -/
def ilog2 (a : ℚ) : Int :=
  let e0 : Int := (bitLen a.num.natAbs : Int) - (bitLen a.den : Int)
  if a < pow2 e0 then e0 - 1 else e0

/-- The integer nearest to a non-negative rational; a tie goes to the even integer. -/
def roundHalfEven (q : ℚ) : Int :=
  let f : Int := q.num / (q.den : Int)
  let r : ℚ := q - f
  if r < 1 / 2 then f else if 1 / 2 < r then f + 1 else if f % 2 = 0 then f else f + 1

/-- Rounding of an exact result to `float64`: the nearest number with a 53-bit significand,
ties to even (IEEE-754 binary64, the default rounding of Go), for results in the normal
range. -/
def rnd (q : ℚ) : ℚ :=
  if q = 0 then 0
  else
    let a := |q|
    let e := ilog2 a
    let m := roundHalfEven (a / pow2 (e - 52))
    if q < 0 then -((m : ℚ) * pow2 (e - 52)) else (m : ℚ) * pow2 (e - 52)

/-- Bisection for the integer square root: `lo * lo <= n < hi * hi` is kept. -/
def isqrtAux : Nat → Nat → Nat → Nat → Nat
  | 0, _, lo, _ => lo
  | fuel + 1, n, lo, hi =>
    if hi ≤ lo + 1 then lo
    else
      let mid := (lo + hi) / 2
      if mid * mid ≤ n then isqrtAux fuel n mid hi else isqrtAux fuel n lo mid

/-- The integer square root: the largest `s` with `s * s <= n`. -/
def isqrt (n : Nat) : Nat := isqrtAux (bitLen n + 2) n 0 (n + 1)

/-- The Go function `math.Sqrt` on a `float64` that is not negative: the correctly rounded
square root.  With `x = a * 4 ^ k` and `s` the integer square root of the integer part of
`x`, the root of `x` is `s` when `s * s = x` and lies strictly between `s` and `s + 1`
otherwise; `k` is large enough that every rounding boundary is an integer on that scale,
so rounding `s + 1 / 2` in the second case rounds as the root itself does. -/
def fsqrt (a : ℚ) : ℚ :=
  if a ≤ 0 then 0
  else
    let k := 64 + bitLen a.den
    let x : ℚ := a * (4 : ℚ) ^ k
    let s := isqrt (x.num / (x.den : Int)).toNat
    let sticky : ℚ := if (s : ℚ) * s = x then 0 else 1 / 2
    rnd (((s : ℚ) + sticky) / (2 : ℚ) ^ k)

/-- The `float64` sum `a + b`. -/
def fadd (a b : ℚ) : ℚ := rnd (a + b)

/-- The `float64` difference `a - b`. -/
def fsub (a b : ℚ) : ℚ := rnd (a - b)

/-- The `float64` product `a * b`. -/
def fmul (a b : ℚ) : ℚ := rnd (a * b)

/-- The `float64` quotient `a / b` for a divisor that is not zero. -/
def fquo (a b : ℚ) : ℚ := rnd (a / b)

/-- Rounding of a value that may be an infinity or NaN. -/
def fval.round (v : fval ℚ) : fval ℚ :=
  match v with
  | fval.fin a => fval.fin (rnd a)
  | fval.posInf => fval.posInf
  | fval.negInf => fval.negInf
  | fval.nan => fval.nan

/-- The finite number that a value is, if it is one. -/
def fval.value (v : fval ℚ) : Option ℚ :=
  match v with
  | fval.fin a => some a
  | _ => none

/-- The Go function `dist` (lines 86-88) in `float64`. -/
def dist64 (x1 y1 x2 y2 : ℚ) : ℚ :=
  fsqrt (fadd (fmul (fsub x1 x2) (fsub x1 x2)) (fmul (fsub y1 y2) (fsub y1 y2)))

/-- The Go function `distSquared` (lines 153-157) in `float64`. -/
def distSquared64 (x1 y1 x2 y2 : ℚ) : ℚ :=
  let dx := fsub x2 x1
  let dy := fsub y2 y1
  fadd (fmul dx dx) (fmul dy dy)

/-- The Go function `distToSegment` (lines 137-151) in `float64`. -/
def distToSegment64 (p v w : point ℚ) : ℚ :=
  let l2 := distSquared64 v.X v.Y w.X w.Y
  if l2 = 0 then dist64 p.X p.Y v.X v.Y
  else
    let t := fquo (fadd (fmul (fsub p.X v.X) (fsub w.X v.X))
      (fmul (fsub p.Y v.Y) (fsub w.Y v.Y))) l2
    if t < 0 then dist64 p.X p.Y v.X v.Y
    else if t > 1 then dist64 p.X p.Y w.X w.Y
    else
      let projection : point ℚ :=
        ⟨fadd v.X (fmul t (fsub w.X v.X)), fadd v.Y (fmul t (fsub w.Y v.Y))⟩
      dist64 p.X p.Y projection.X projection.Y

/-- The body of the inner loop of `circleFromPoints` (lines 96-101) in `float64`. -/
def scanStep64 (p : point ℚ) (s : scan ℚ) (q : point ℚ) : scan ℚ :=
  let d := dist64 p.X p.Y q.X q.Y
  if d > s.maxDist then ⟨d, p, q⟩ else s

/-- The nested loops of `circleFromPoints` (lines 94-103) in `float64`. -/
def scanPairs64 : List (point ℚ) → scan ℚ → scan ℚ
  | [], s => s
  | p :: rest, s => scanPairs64 rest (rest.foldl (scanStep64 p) s)

/-- The state of `maxDist`, `p1`, `p2` after the loops of lines 92-103, in `float64`. -/
def maxPair64 (points : List (point ℚ)) : scan ℚ :=
  scanPairs64 points ⟨0, ⟨0, 0⟩, ⟨0, 0⟩⟩

/-- The `center` of `circleFromPoints` (line 106) in `float64`. -/
def fitCenter64 (points : List (point ℚ)) : point ℚ :=
  let s := maxPair64 points
  ⟨fquo (fadd s.p1.X s.p2.X) 2, fquo (fadd s.p1.Y s.p2.Y) 2⟩

/-- The `radius` of `circleFromPoints` (line 107) in `float64`. -/
def fitRadius64 (points : List (point ℚ)) : ℚ :=
  let s := maxPair64 points
  fquo (dist64 s.p1.X s.p1.Y s.p2.X s.p2.Y) 2

/-- The flag `allInCircle` of `circleFromPoints` (lines 110-116) in `float64`. -/
def allInCircle64 (points : List (point ℚ)) : Bool :=
  let center := fitCenter64 points
  let radius := fitRadius64 points
  points.all fun p => !decide (dist64 p.X p.Y center.X center.Y > radius)

/-- The sum `totalDist` of `circleFromPoints` (lines 123-127) in `float64`. -/
def totalDist64 (points : List (point ℚ)) : ℚ :=
  let center := fitCenter64 points
  (List.range points.length).foldl
    (fun acc i =>
      let j := (i + 1) % points.length
      fadd acc (distToSegment64 (points.getD i ⟨0, 0⟩) (points.getD j ⟨0, 0⟩) center))
    0

/-- The variable `quality` of `circleFromPoints` (lines 119-129) in `float64`: each of the
two divisions, the subtraction and the multiplication is rounded. -/
def quality64 (points : List (point ℚ)) : fval ℚ :=
  if allInCircle64 points then fval.fin 100
  else
    fval.round (fval.mulFin
      (fval.round (fval.rsub 1
        (fval.round (fval.divFin
          (fval.round (fdiv (totalDist64 points) (fitRadius64 points)))
          (points.length : ℚ)))))
      100)

/-- The Go function `circleFromPoints` (lines 90-135) in `float64`: the center, the radius
and the flag `red`. -/
def circleFromPoints64 (points : List (point ℚ)) : point ℚ × ℚ × Bool :=
  let center := fitCenter64 points
  let radius := fitRadius64 points
  let red := fval.ltFin (quality64 points) 50
  (center, radius, red)

/-- Three points on the x-axis, as the Go literals `{10, 0}`, `{20, 0}`, `{31.3, 0}` denote
them: 10 and 20 are `float64` values, 31.3 is rounded to the nearest one. -/
def axisTriple : List (point ℚ) := [⟨10, 0⟩, ⟨20, 0⟩, ⟨rnd (313 / 10), 0⟩]

end binary64

/-! ## Shared lemmas -/

section lemmas

variable {F : Type} [LinearOrderedField F]

/-- The saturation of `time.Time.Sub` does not change the comparison with 100 ms. -/
theorem since_gt_iff (now t : Int) :
    since now t > Millisecond * 100 ↔ now - t > 100 * Millisecond := by
  have e1 : minDuration = -9223372036854775808 := by norm_num [minDuration]
  have e2 : maxDuration = 9223372036854775807 := by norm_num [maxDuration]
  have e3 : Millisecond = 1000000 := rfl
  unfold since timeSub
  rw [e1, e2, e3]
  show (if now - t < -9223372036854775808 then (-9223372036854775808 : Int)
      else if now - t > 9223372036854775807 then 9223372036854775807 else now - t)
        > 1000000 * 100 ↔ now - t > 100 * 1000000
  split_ifs <;> constructor <;> intro h <;> omega

/-- The real square root is a square root in the sense of `SqrtSpec`. -/
theorem sqrtSpec_real : SqrtSpec Real.sqrt :=
  ⟨Real.sqrt_nonneg, fun _ hx => Real.mul_self_sqrt hx⟩

/-- The rejection branch of the spacing check. -/
theorem update_of_close (E : Env F) (g : game F) (x y : F) (tSince tNow : Int)
    (h : dist E x y g.lastPoint.X g.lastPoint.Y < 10) :
    update E g x y tSince tNow =
      ({ g with errorMessage := "Too close to last point" },
        some "Too close to last point") := by
  unfold update
  simp only [h, if_true]

/-- The rejection branch of the pacing check. -/
theorem update_of_slow (E : Env F) (g : game F) (x y : F) (tSince tNow : Int)
    (h1 : ¬ dist E x y g.lastPoint.X g.lastPoint.Y < 10)
    (h2 : g.lastTime ≠ zeroTime ∧ since tSince g.lastTime > Millisecond * 100) :
    update E g x y tSince tNow =
      ({ g with errorMessage := "Draw faster" }, some "Draw faster") := by
  unfold update
  rw [if_neg h1, if_pos h2]

/-- The acceptance branch: the three assignments of lines 55-57, then at most an
annotation on the canvas, and no error. -/
theorem update_of_accept (E : Env F) (g : game F) (x y : F) (tSince tNow : Int)
    (h1 : ¬ dist E x y g.lastPoint.X g.lastPoint.Y < 10)
    (h2 : ¬ (g.lastTime ≠ zeroTime ∧ since tSince g.lastTime > Millisecond * 100)) :
    update E g x y tSince tNow =
      (if 3 ≤ (g.points ++ [point.mk x y]).length ∧
            (circleFromPoints E (g.points ++ [point.mk x y])).2.2 = true then
          { accepted g x y tNow with
            canvas := g.canvas ++
              circleMarkup E (fitCenter E (g.points ++ [point.mk x y]))
                (fitRadius E (g.points ++ [point.mk x y]))
                (colorOf (percentOf E (g.points ++ [point.mk x y])
                  (fitCenter E (g.points ++ [point.mk x y]))
                  (fitRadius E (g.points ++ [point.mk x y])))) }
        else accepted g x y tNow,
       none) := by
  unfold update
  rw [if_neg h1, if_neg h2]
  dsimp only
  by_cases h3 : 3 ≤ (g.points ++ [point.mk x y]).length
  · by_cases h4 : (circleFromPoints E (g.points ++ [point.mk x y])).2.2 = true
    · have h34 : 3 ≤ (g.points ++ [point.mk x y]).length ∧
          (circleFromPoints E (g.points ++ [point.mk x y])).2.2 = true := ⟨h3, h4⟩
      rw [if_pos h34, if_pos h3, if_pos h4]
      rfl
    · have h34 : ¬ (3 ≤ (g.points ++ [point.mk x y]).length ∧
          (circleFromPoints E (g.points ++ [point.mk x y])).2.2 = true) := fun h => h4 h.2
      rw [if_neg h34, if_pos h3, if_neg h4]
      rfl
  · have h34 : ¬ (3 ≤ (g.points ++ [point.mk x y]).length ∧
        (circleFromPoints E (g.points ++ [point.mk x y])).2.2 = true) := fun h => h3 h.1
    rw [if_neg h34, if_neg h3]
    rfl

/-- A square root undoes squaring on the non-negative numbers. -/
theorem sqrt_mul_self_of_spec {sqrt : F → F} (hE : SqrtSpec sqrt) {r : F} (hr : 0 ≤ r) :
    sqrt (r * r) = r :=
  (mul_self_inj (hE.nonneg _) hr).mp (hE.mul_self _ (mul_self_nonneg r))

/-- The square root of zero is zero. -/
theorem sqrt_zero_of_spec {sqrt : F → F} (hE : SqrtSpec sqrt) : sqrt 0 = 0 := by
  have h := sqrt_mul_self_of_spec hE (le_refl (0 : F))
  rwa [mul_zero] at h

/-- Distances are non-negative. -/
theorem dist_nonneg (E : Env F) (hE : SqrtSpec E.Sqrt) (x1 y1 x2 y2 : F) :
    0 ≤ dist E x1 y1 x2 y2 := hE.nonneg _

/-- The distance does not depend on the order of the two points. -/
theorem dist_comm (E : Env F) (x1 y1 x2 y2 : F) :
    dist E x1 y1 x2 y2 = dist E x2 y2 x1 y1 := by
  unfold dist
  congr 1
  ring

/-- A point is at distance zero from itself. -/
theorem dist_self (E : Env F) (hE : SqrtSpec E.Sqrt) (x y : F) : dist E x y x y = 0 := by
  unfold dist
  rw [sub_self, sub_self, mul_zero, add_zero]
  exact sqrt_zero_of_spec hE

/-- One step of the inner loop never lowers `maxDist` and leaves it at least the distance
just examined. -/
theorem scanStep_le (E : Env F) (p : point F) (s : scan F) (q : point F) :
    s.maxDist ≤ (scanStep E p s q).maxDist ∧
    dist E p.X p.Y q.X q.Y ≤ (scanStep E p s q).maxDist := by
  unfold scanStep
  dsimp only
  split_ifs with h
  · exact ⟨le_of_lt h, le_refl _⟩
  · exact ⟨le_refl _, not_lt.mp h⟩

/-- The inner loop never lowers `maxDist` and leaves it at least every distance it examined. -/
theorem foldl_scanStep_le (E : Env F) (p : point F) (rest : List (point F)) (s : scan F) :
    s.maxDist ≤ (rest.foldl (scanStep E p) s).maxDist ∧
    ∀ q ∈ rest, dist E p.X p.Y q.X q.Y ≤ (rest.foldl (scanStep E p) s).maxDist := by
  induction rest generalizing s with
  | nil => exact ⟨le_refl _, fun q hq => by simp at hq⟩
  | cons a rest ih =>
    rw [List.foldl_cons]
    have h1 := scanStep_le E p s a
    have h2 := ih (scanStep E p s a)
    refine ⟨le_trans h1.1 h2.1, fun q hq => ?_⟩
    rcases List.mem_cons.mp hq with rfl | hq
    · exact le_trans h1.2 h2.1
    · exact h2.2 q hq

/-- The nested loops never lower `maxDist` and leave it at least the distance of every
pair of the list (first entry before second). -/
theorem scanPairs_le (E : Env F) (pts : List (point F)) (s : scan F) :
    s.maxDist ≤ (scanPairs E pts s).maxDist ∧
    pts.Pairwise (fun a b => dist E a.X a.Y b.X b.Y ≤ (scanPairs E pts s).maxDist) := by
  induction pts generalizing s with
  | nil => exact ⟨le_refl _, List.Pairwise.nil⟩
  | cons p rest ih =>
    rw [scanPairs]
    have h1 := foldl_scanStep_le E p rest s
    have h2 := ih (rest.foldl (scanStep E p) s)
    refine ⟨le_trans h1.1 h2.1, List.Pairwise.cons (fun q hq => ?_) h2.2⟩
    exact le_trans (h1.2 q hq) h2.1

/-- Where the values of `maxDist`, `p1`, `p2` come from: they are the ones before the
inner loop, or the distance and the points of a pair the loop examined. -/
theorem foldl_scanStep_src (E : Env F) (p : point F) (rest : List (point F)) (s : scan F) :
    rest.foldl (scanStep E p) s = s ∨
    ∃ q ∈ rest, rest.foldl (scanStep E p) s = ⟨dist E p.X p.Y q.X q.Y, p, q⟩ := by
  induction rest generalizing s with
  | nil => exact Or.inl rfl
  | cons a rest ih =>
    rw [List.foldl_cons]
    rcases ih (scanStep E p s a) with h | ⟨q, hq, h⟩
    · rw [h]
      unfold scanStep
      dsimp only
      split_ifs
      · exact Or.inr ⟨a, List.mem_cons_self _ _, rfl⟩
      · exact Or.inl rfl
    · exact Or.inr ⟨q, List.mem_cons_of_mem _ hq, h⟩

/-- After the nested loops, `maxDist`, `p1`, `p2` are untouched or are the distance and the
points of two entries of the list, the first before the second. -/
theorem scanPairs_src (E : Env F) (pts : List (point F)) (s : scan F) :
    scanPairs E pts s = s ∨
    ∃ a b, List.Sublist [a, b] pts ∧ scanPairs E pts s = ⟨dist E a.X a.Y b.X b.Y, a, b⟩ := by
  induction pts generalizing s with
  | nil => exact Or.inl rfl
  | cons p rest ih =>
    rw [scanPairs]
    rcases ih (rest.foldl (scanStep E p) s) with h | ⟨a, b, hab, h⟩
    · rw [h]
      rcases foldl_scanStep_src E p rest s with h' | ⟨q, hq, h'⟩
      · exact Or.inl h'
      · refine Or.inr ⟨p, q, ?_, h'⟩
        exact List.Sublist.cons₂ p (List.singleton_sublist.mpr hq)
    · exact Or.inr ⟨a, b, List.Sublist.cons p hab, h⟩


/-- Two entries of a list, one before the other, sit at two indices `i < j`. -/
theorem sublist_pair_index {α : Type} (a b : α) (l : List α) (h : List.Sublist [a, b] l) :
    ∃ i j : Nat, i < j ∧ l[i]? = some a ∧ l[j]? = some b := by
  induction l with
  | nil => cases h
  | cons p rest ih =>
    cases h with
    | cons _ h' =>
      obtain ⟨i, j, hij, hi, hj⟩ := ih h'
      exact ⟨i + 1, j + 1, by omega, by simpa using hi, by simpa using hj⟩
    | cons₂ _ h' =>
      have hb : b ∈ rest := List.singleton_sublist.mp h'
      obtain ⟨k, hk⟩ := List.getElem?_of_mem hb
      exact ⟨0, k + 1, by omega, by simp, by simpa using hk⟩

/-- The result of the scan is the initial triple of zero values or comes from a pair of
entries of the list. -/
theorem maxPair_cases (E : Env F) (pts : List (point F)) :
    maxPair E pts = ⟨0, ⟨0, 0⟩, ⟨0, 0⟩⟩ ∨
    ∃ a b, List.Sublist [a, b] pts ∧ maxPair E pts = ⟨dist E a.X a.Y b.X b.Y, a, b⟩ :=
  scanPairs_src E pts _

/-- The radius is half of the final `maxDist`. -/
theorem fitRadius_eq (E : Env F) (hE : SqrtSpec E.Sqrt) (pts : List (point F)) :
    2 * fitRadius E pts = (maxPair E pts).maxDist := by
  unfold fitRadius
  dsimp only
  rw [mul_div_cancel₀ _ (two_ne_zero)]
  rcases maxPair_cases E pts with h | ⟨a, b, _, h⟩
  · rw [h]
    exact dist_self E hE 0 0
  · rw [h]

/-- The distance is `r` when the sum of the squared coordinate differences is `r * r`. -/
theorem dist_eq_of_sq (E : Env F) (hE : SqrtSpec E.Sqrt) {x1 y1 x2 y2 r : F} (hr : 0 ≤ r)
    (h : (x1 - x2) * (x1 - x2) + (y1 - y2) * (y1 - y2) = r * r) :
    dist E x1 y1 x2 y2 = r := by
  unfold dist
  rw [h]
  exact sqrt_mul_self_of_spec hE hr

/-- The state of `demo1`. -/
theorem demo1_eq (E : Env F) (hE : SqrtSpec E.Sqrt) :
    demo1 E = ⟨[⟨30, 0⟩], ⟨30, 0⟩, 1000, "", emptyCanvas⟩ := by
  have hd : dist E 30 0 0 0 = 30 := dist_eq_of_sq E hE (by norm_num) (by norm_num)
  unfold demo1
  rw [update_of_accept]
  · simp [start, zeroGame, accepted]
  · show ¬ dist E 30 0 0 0 < 10
    rw [hd]; norm_num
  · simp [start, zeroGame]

/-- The state of `demo2`. -/
theorem demo2_eq (E : Env F) (hE : SqrtSpec E.Sqrt) :
    demo2 E = ⟨[⟨30, 0⟩, ⟨0, 40⟩], ⟨0, 40⟩, 2000, "", emptyCanvas⟩ := by
  have hd : dist E 0 40 30 0 = 50 := dist_eq_of_sq E hE (by norm_num) (by norm_num)
  unfold demo2
  rw [demo1_eq E hE, update_of_accept]
  · simp [accepted]
  · show ¬ dist E 0 40 30 0 < 10
    rw [hd]; norm_num
  · rw [since_gt_iff]
    simp [Millisecond]

/-- The scan of the right triangle stops at its hypotenuse. -/
theorem tri_maxPair (E : Env F) (hE : SqrtSpec E.Sqrt) :
    maxPair E [⟨30, 0⟩, ⟨0, 40⟩, ⟨30, 40⟩] = ⟨50, ⟨30, 0⟩, ⟨0, 40⟩⟩ := by
  have h12 : dist E 30 0 0 40 = 50 := dist_eq_of_sq E hE (by norm_num) (by norm_num)
  have h13 : dist E 30 0 30 40 = 40 := dist_eq_of_sq E hE (by norm_num) (by norm_num)
  have h23 : dist E 0 40 30 40 = 30 := dist_eq_of_sq E hE (by norm_num) (by norm_num)
  simp only [maxPair, scanPairs, List.foldl, scanStep, h12, h13, h23]
  norm_num

/-- The fitted center of the right triangle is the midpoint of its hypotenuse. -/
theorem tri_center (E : Env F) (hE : SqrtSpec E.Sqrt) :
    fitCenter E [⟨30, 0⟩, ⟨0, 40⟩, ⟨30, 40⟩] = ⟨15, 20⟩ := by
  simp only [fitCenter, tri_maxPair E hE]
  norm_num

/-- The fitted radius of the right triangle is half its hypotenuse. -/
theorem tri_radius (E : Env F) (hE : SqrtSpec E.Sqrt) :
    fitRadius E [⟨30, 0⟩, ⟨0, 40⟩, ⟨30, 40⟩] = 25 := by
  have h12 : dist E 30 0 0 40 = 50 := dist_eq_of_sq E hE (by norm_num) (by norm_num)
  simp only [fitRadius, tri_maxPair E hE, h12]
  norm_num

/-- All three corners of the right triangle pass the containment test. -/
theorem tri_allInCircle (E : Env F) (hE : SqrtSpec E.Sqrt) :
    allInCircle E [⟨30, 0⟩, ⟨0, 40⟩, ⟨30, 40⟩] = true := by
  have h1 : dist E 30 0 15 20 = 25 := dist_eq_of_sq E hE (by norm_num) (by norm_num)
  have h2 : dist E 0 40 15 20 = 25 := dist_eq_of_sq E hE (by norm_num) (by norm_num)
  have h3 : dist E 30 40 15 20 = 25 := dist_eq_of_sq E hE (by norm_num) (by norm_num)
  simp [allInCircle, tri_center E hE, tri_radius E hE, h1, h2, h3]

/-- The fitter does not flag the right triangle: its third return value is false. -/
theorem tri_red (E : Env F) (hE : SqrtSpec E.Sqrt) :
    (circleFromPoints E [⟨30, 0⟩, ⟨0, 40⟩, ⟨30, 40⟩]).2.2 = false := by
  simp only [circleFromPoints, quality, tri_allInCircle E hE, if_true, fval.ltFin]
  norm_num

/-- The third call of the session `demo3`: accepted, and the canvas is not touched. -/
theorem demo3_step (E : Env F) (hE : SqrtSpec E.Sqrt) :
    update E (demo2 E) 30 40 3000 3000 =
      (⟨[⟨30, 0⟩, ⟨0, 40⟩, ⟨30, 40⟩], ⟨30, 40⟩, 3000, "", emptyCanvas⟩, none) := by
  have hd : dist E 30 40 0 40 = 30 := dist_eq_of_sq E hE (by norm_num) (by norm_num)
  rw [demo2_eq E hE, update_of_accept]
  · have hr := tri_red E hE
    simp only [List.cons_append, List.nil_append]
    rw [if_neg (by rw [hr]; simp)]
    simp [accepted]
  · show ¬ dist E 30 40 0 40 < 10
    rw [hd]; norm_num
  · rw [since_gt_iff]
    simp [Millisecond]

/-- The state of `demo3`: three points and the canvas that `start` installed. -/
theorem demo3_eq (E : Env F) (hE : SqrtSpec E.Sqrt) :
    demo3 E = ⟨[⟨30, 0⟩, ⟨0, 40⟩, ⟨30, 40⟩], ⟨30, 40⟩, 3000, "", emptyCanvas⟩ := by
  unfold demo3
  rw [demo3_step E hE]

/-- Appending an annotation changes the canvas. -/
theorem append_annotation_ne {G : Type} (E : Env G) (s : String) (c : point G) (r : G)
    (col : String) : s ++ circleMarkup E c r col ≠ s := by
  intro h
  have h1 := congrArg String.length h
  have h2 : ("<script>drawCircle(" : String).length = 19 := by decide
  simp only [circleMarkup, String.length_append, h2] at h1
  omega

/-- What the code does: an accepted `update` appends an annotation exactly when the buffer
holds at least three points and the third return value of `circleFromPoints`, the flag
`red`, is true. -/
theorem update_annotates_iff (E : Env F) (g : game F) (x y : F) (tSince tNow : Int)
    (hacc : (update E g x y tSince tNow).2 = none) :
    (update E g x y tSince tNow).1.canvas ≠ g.canvas ↔
      (3 ≤ (g.points ++ [point.mk x y]).length ∧
        (circleFromPoints E (g.points ++ [point.mk x y])).2.2 = true) := by
  by_cases h1 : dist E x y g.lastPoint.X g.lastPoint.Y < 10
  · rw [update_of_close E g x y tSince tNow h1] at hacc
    simp at hacc
  · by_cases h2 : g.lastTime ≠ zeroTime ∧ since tSince g.lastTime > Millisecond * 100
    · rw [update_of_slow E g x y tSince tNow h1 h2] at hacc
      simp at hacc
    · rw [update_of_accept E g x y tSince tNow h1 h2]
      dsimp only
      split_ifs with h3
      · exact ⟨fun _ => h3, fun _ => append_annotation_ne _ _ _ _ _⟩
      · exact ⟨fun h => absurd rfl h, fun h => absurd h h3⟩

/-- The state of `iso1`. -/
theorem iso1_eq (E : Env F) (hE : SqrtSpec E.Sqrt) :
    iso1 E = ⟨[⟨30, 40⟩], ⟨30, 40⟩, 1000, "", emptyCanvas⟩ := by
  have hd : dist E 30 40 0 0 = 50 := dist_eq_of_sq E hE (by norm_num) (by norm_num)
  unfold iso1
  rw [update_of_accept]
  · simp [start, zeroGame, accepted]
  · show ¬ dist E 30 40 0 0 < 10
    rw [hd]; norm_num
  · simp [start, zeroGame]

/-- The state of `iso2`. -/
theorem iso2_eq (E : Env F) (hE : SqrtSpec E.Sqrt) :
    iso2 E = ⟨[⟨30, 40⟩, ⟨90, 40⟩], ⟨90, 40⟩, 2000, "", emptyCanvas⟩ := by
  have hd : dist E 90 40 30 40 = 60 := dist_eq_of_sq E hE (by norm_num) (by norm_num)
  unfold iso2
  rw [iso1_eq E hE, update_of_accept]
  · simp [accepted]
  · show ¬ dist E 90 40 30 40 < 10
    rw [hd]; norm_num
  · rw [since_gt_iff]
    simp [Millisecond]

/-- The scan of the isosceles triangle stops at its base. -/
theorem iso_maxPair (E : Env F) (hE : SqrtSpec E.Sqrt) :
    maxPair E [⟨30, 40⟩, ⟨90, 40⟩, ⟨60, 80⟩] = ⟨60, ⟨30, 40⟩, ⟨90, 40⟩⟩ := by
  have h12 : dist E 30 40 90 40 = 60 := dist_eq_of_sq E hE (by norm_num) (by norm_num)
  have h13 : dist E 30 40 60 80 = 50 := dist_eq_of_sq E hE (by norm_num) (by norm_num)
  have h23 : dist E 90 40 60 80 = 50 := dist_eq_of_sq E hE (by norm_num) (by norm_num)
  simp only [maxPair, scanPairs, List.foldl, scanStep, h12, h13, h23]
  norm_num

/-- The fitted center of the isosceles triangle is the middle of its base. -/
theorem iso_center (E : Env F) (hE : SqrtSpec E.Sqrt) :
    fitCenter E [⟨30, 40⟩, ⟨90, 40⟩, ⟨60, 80⟩] = ⟨60, 40⟩ := by
  simp only [fitCenter, iso_maxPair E hE]
  norm_num

/-- The fitted radius of the isosceles triangle is half its base. -/
theorem iso_radius (E : Env F) (hE : SqrtSpec E.Sqrt) :
    fitRadius E [⟨30, 40⟩, ⟨90, 40⟩, ⟨60, 80⟩] = 30 := by
  have h12 : dist E 30 40 90 40 = 60 := dist_eq_of_sq E hE (by norm_num) (by norm_num)
  simp only [fitRadius, iso_maxPair E hE, h12]
  norm_num

/-- The apex of the isosceles triangle fails the containment test. -/
theorem iso_allInCircle (E : Env F) (hE : SqrtSpec E.Sqrt) :
    allInCircle E [⟨30, 40⟩, ⟨90, 40⟩, ⟨60, 80⟩] = false := by
  have h1 : dist E 30 40 60 40 = 30 := dist_eq_of_sq E hE (by norm_num) (by norm_num)
  have h2 : dist E 90 40 60 40 = 30 := dist_eq_of_sq E hE (by norm_num) (by norm_num)
  have h3 : dist E 60 80 60 40 = 40 := dist_eq_of_sq E hE (by norm_num) (by norm_num)
  simp only [allInCircle, iso_center E hE, iso_radius E hE, List.all_cons, h1, h2, h3,
    List.all_nil]
  norm_num

/-- The three segment distances of the isosceles triangle are 30, 30 and 40. -/
theorem iso_totalDist (E : Env F) (hE : SqrtSpec E.Sqrt) :
    totalDist E [⟨30, 40⟩, ⟨90, 40⟩, ⟨60, 80⟩] = 100 := by
  have h1 : dist E 30 40 60 40 = 30 := dist_eq_of_sq E hE (by norm_num) (by norm_num)
  have h2 : dist E 90 40 60 40 = 30 := dist_eq_of_sq E hE (by norm_num) (by norm_num)
  have h3 : dist E 60 80 60 40 = 40 := dist_eq_of_sq E hE (by norm_num) (by norm_num)
  have s1 : distToSegment E ⟨30, 40⟩ ⟨90, 40⟩ ⟨60, 40⟩ = 30 := by
    simp only [distToSegment, distSquared]
    norm_num
    exact h1
  have s2 : distToSegment E ⟨90, 40⟩ ⟨60, 80⟩ ⟨60, 40⟩ = 30 := by
    simp only [distToSegment, distSquared]
    norm_num
    exact h2
  have s3 : distToSegment E ⟨60, 80⟩ ⟨30, 40⟩ ⟨60, 40⟩ = 40 := by
    simp only [distToSegment, distSquared]
    norm_num
    exact h3
  simp only [totalDist, iso_center E hE]
  simp [List.range_succ, s1, s2, s3]
  norm_num


/-- The quality of the isosceles triangle is (1 - 100 / 30 / 3) * 100. -/
theorem iso_quality (E : Env F) (hE : SqrtSpec E.Sqrt) :
    quality E [⟨30, 40⟩, ⟨90, 40⟩, ⟨60, 80⟩] = fval.fin (-100 / 9) := by
  simp only [quality, iso_allInCircle E hE, iso_totalDist E hE, iso_radius E hE, fdiv,
    fval.divFin, fval.rsub, fval.mulFin]
  norm_num

/-- The fitter flags the isosceles triangle: its third return value is true. -/
theorem iso_red (E : Env F) (hE : SqrtSpec E.Sqrt) :
    (circleFromPoints E [⟨30, 40⟩, ⟨90, 40⟩, ⟨60, 80⟩]).2.2 = true := by
  simp only [circleFromPoints, iso_quality E hE, fval.ltFin]
  norm_num

/-- The percentage that `update` computes for the isosceles triangle. -/
theorem iso_percent (E : Env F) (hE : SqrtSpec E.Sqrt) :
    percentOf E [⟨30, 40⟩, ⟨90, 40⟩, ⟨60, 80⟩] ⟨60, 40⟩ 30 = -700 / 3 := by
  have h1 : dist E 30 40 60 40 = 30 := dist_eq_of_sq E hE (by norm_num) (by norm_num)
  have h2 : dist E 90 40 60 40 = 30 := dist_eq_of_sq E hE (by norm_num) (by norm_num)
  have h3 : dist E 60 80 60 40 = 40 := dist_eq_of_sq E hE (by norm_num) (by norm_num)
  simp only [percentOf, radialDiff, List.foldl, h1, h2, h3]
  norm_num

/-- The state of `iso3`: three points and one annotation on the canvas. -/
theorem iso3_eq (E : Env F) (hE : SqrtSpec E.Sqrt) :
    iso3 E = ⟨[⟨30, 40⟩, ⟨90, 40⟩, ⟨60, 80⟩], ⟨60, 80⟩, 3000, "",
      emptyCanvas ++ circleMarkup E ⟨60, 40⟩ 30 "red"⟩ := by
  have hd : dist E 60 80 90 40 = 50 := dist_eq_of_sq E hE (by norm_num) (by norm_num)
  unfold iso3
  rw [iso2_eq E hE, update_of_accept]
  · have hr := iso_red E hE
    simp only [List.cons_append, List.nil_append]
    rw [if_pos ⟨by simp, hr⟩, iso_center E hE, iso_radius E hE, iso_percent E hE]
    have hc : colorOf (-700 / 3 : F) = "red" := by
      unfold colorOf
      rw [if_pos (by norm_num)]
    rw [hc]
    simp [accepted]
  · show ¬ dist E 60 80 90 40 < 10
    rw [hd]; norm_num
  · rw [since_gt_iff]
    simp [Millisecond]

/-- Sum form of the loop of lines 64-67. -/
theorem radialDiff_eq_sum (E : Env F) (pts : List (point F)) (c : point F) (r : F) :
    radialDiff E pts c r = (pts.map fun p => |dist E p.X p.Y c.X c.Y - r|).sum := by
  unfold radialDiff
  have h : ∀ (l : List (point F)) (a : F),
      l.foldl (fun diff p => diff + |dist E p.X p.Y c.X c.Y - r|) a =
        a + (l.map fun p => |dist E p.X p.Y c.X c.Y - r|).sum := by
    intro l
    induction l with
    | nil => intro a; simp
    | cons p l ih => intro a; rw [List.foldl_cons, ih, List.map_cons, List.sum_cons, add_assoc]
  rw [h, zero_add]

/-- The canvas after an `update` is the old canvas, or the old canvas followed by the
annotation of the fit of the new buffer. -/
theorem update_canvas_cases (E : Env F) (g : game F) (x y : F) (tSince tNow : Int) :
    (update E g x y tSince tNow).1.canvas = g.canvas ∨
    (update E g x y tSince tNow).1.canvas = g.canvas ++
      circleMarkup E (fitCenter E (g.points ++ [point.mk x y]))
        (fitRadius E (g.points ++ [point.mk x y]))
        (colorOf (percentOf E (g.points ++ [point.mk x y])
          (fitCenter E (g.points ++ [point.mk x y]))
          (fitRadius E (g.points ++ [point.mk x y])))) := by
  by_cases h1 : dist E x y g.lastPoint.X g.lastPoint.Y < 10
  · rw [update_of_close E g x y tSince tNow h1]
    exact Or.inl rfl
  · by_cases h2 : g.lastTime ≠ zeroTime ∧ since tSince g.lastTime > Millisecond * 100
    · rw [update_of_slow E g x y tSince tNow h1 h2]
      exact Or.inl rfl
    · rw [update_of_accept E g x y tSince tNow h1 h2]
      dsimp only
      split_ifs
      · exact Or.inr rfl
      · exact Or.inl rfl

/-- The colour is green exactly from 95 upwards. -/
theorem colorOf_green (percent : F) : colorOf percent = "green" ↔ 95 ≤ percent := by
  unfold colorOf
  split_ifs with h1 h2
  · constructor
    · intro h; exact absurd h (by decide)
    · intro h; linarith
  · constructor
    · intro h; exact absurd h (by decide)
    · intro h; linarith
  · exact ⟨fun _ => not_lt.mp h2, fun _ => rfl⟩

/-- The colour is orange exactly from 90 up to, and not including, 95. -/
theorem colorOf_orange (percent : F) :
    colorOf percent = "orange" ↔ 90 ≤ percent ∧ percent < 95 := by
  unfold colorOf
  split_ifs with h1 h2
  · constructor
    · intro h; exact absurd h (by decide)
    · intro h; linarith [h.1]
  · exact ⟨fun _ => ⟨not_lt.mp h1, h2⟩, fun _ => rfl⟩
  · constructor
    · intro h; exact absurd h (by decide)
    · intro h; exact absurd h.2 h2

/-- The colour is red exactly below 90. -/
theorem colorOf_red (percent : F) : colorOf percent = "red" ↔ percent < 90 := by
  unfold colorOf
  split_ifs with h1 h2
  · exact ⟨fun _ => h1, fun _ => rfl⟩
  · constructor
    · intro h; exact absurd h (by decide)
    · intro h; exact absurd h h1
  · constructor
    · intro h; exact absurd h (by decide)
    · intro h; exact absurd h h1

/-- The scan of two copies of the point (3, 4) never updates the initial values. -/
theorem coin_maxPair (E : Env F) (hE : SqrtSpec E.Sqrt) :
    maxPair E [⟨3, 4⟩, ⟨3, 4⟩] = ⟨0, ⟨0, 0⟩, ⟨0, 0⟩⟩ := by
  have h : dist E 3 4 3 4 = 0 := dist_self E hE 3 4
  simp only [maxPair, scanPairs, List.foldl, scanStep, h]
  norm_num

/-- The fitted center of two copies of (3, 4) is the zero point. -/
theorem coin_center (E : Env F) (hE : SqrtSpec E.Sqrt) :
    fitCenter E [⟨3, 4⟩, ⟨3, 4⟩] = ⟨0, 0⟩ := by
  simp only [fitCenter, coin_maxPair E hE]
  norm_num

/-- The fitted radius of two copies of (3, 4) is zero. -/
theorem coin_radius (E : Env F) (hE : SqrtSpec E.Sqrt) :
    fitRadius E [⟨3, 4⟩, ⟨3, 4⟩] = 0 := by
  have h : dist E 0 0 0 0 = 0 := dist_self E hE 0 0
  simp only [fitRadius, coin_maxPair E hE, h]
  norm_num

/-- The point (3, 4) fails the containment test of the circle of radius 0 at the origin. -/
theorem coin_allInCircle (E : Env F) (hE : SqrtSpec E.Sqrt) :
    allInCircle E [⟨3, 4⟩, ⟨3, 4⟩] = false := by
  have h1 : dist E 3 4 0 0 = 5 := dist_eq_of_sq E hE (by norm_num) (by norm_num)
  simp only [allInCircle, coin_center E hE, coin_radius E hE, List.all_cons, h1,
    List.all_nil]
  norm_num

/-- Both segment distances of two copies of (3, 4) are zero. -/
theorem coin_totalDist (E : Env F) (hE : SqrtSpec E.Sqrt) :
    totalDist E [⟨3, 4⟩, ⟨3, 4⟩] = 0 := by
  have h : dist E 3 4 3 4 = 0 := dist_self E hE 3 4
  have s1 : distToSegment E ⟨3, 4⟩ ⟨3, 4⟩ ⟨0, 0⟩ = 0 := by
    simp only [distToSegment, distSquared]
    norm_num
    exact h
  simp only [totalDist, coin_center E hE]
  simp [List.range_succ, s1]

/-- The quality of two copies of (3, 4) is the quotient 0 / 0. -/
theorem coin_quality (E : Env F) (hE : SqrtSpec E.Sqrt) :
    quality E [⟨3, 4⟩, ⟨3, 4⟩] = fval.nan := by
  simp only [quality, coin_allInCircle E hE, coin_totalDist E hE, coin_radius E hE, fdiv,
    fval.divFin, fval.rsub, fval.mulFin]
  simp

/-- An `update` leaves `points` and `lastPoint` alone, or appends the submitted point, which
then passed the spacing check, and makes it `lastPoint`. -/
theorem update_points_cases (E : Env F) (g : game F) (x y : F) (tSince tNow : Int) :
    ((update E g x y tSince tNow).1.points = g.points ∧
      (update E g x y tSince tNow).1.lastPoint = g.lastPoint) ∨
    (¬ dist E x y g.lastPoint.X g.lastPoint.Y < 10 ∧
      (update E g x y tSince tNow).1.points = g.points ++ [point.mk x y] ∧
      (update E g x y tSince tNow).1.lastPoint = point.mk x y) := by
  by_cases h1 : dist E x y g.lastPoint.X g.lastPoint.Y < 10
  · rw [update_of_close E g x y tSince tNow h1]
    exact Or.inl ⟨rfl, rfl⟩
  · by_cases h2 : g.lastTime ≠ zeroTime ∧ since tSince g.lastTime > Millisecond * 100
    · rw [update_of_slow E g x y tSince tNow h1 h2]
      exact Or.inl ⟨rfl, rfl⟩
    · rw [update_of_accept E g x y tSince tNow h1 h2]
      right
      refine ⟨h1, ?_⟩
      dsimp only
      split_ifs <;> exact ⟨rfl, rfl⟩


/-- The invariant of the session: consecutive points are spaced, and `lastPoint` is the last
entry of `points` whenever there is one. -/
theorem reachable_inv (E : Env F) (g : game F) (h : Reachable E g) :
    Spaced E g.points ∧ ∀ p, g.points.getLast? = some p → g.lastPoint = p := by
  induction h with
  | init g0 => exact ⟨List.chain'_nil, fun p hp => by simp [start] at hp⟩
  | restart g _ _ => exact ⟨List.chain'_nil, fun p hp => by simp [start] at hp⟩
  | update g x y tSince tNow _ ih =>
    rcases update_points_cases E g x y tSince tNow with ⟨hp, hl⟩ | ⟨hd, hp, hl⟩
    · rw [hp, hl]; exact ih
    · rw [hp, hl]
      refine ⟨?_, fun p hp => by simpa using hp⟩
      unfold Spaced
      rw [List.chain'_append]
      refine ⟨ih.1, List.chain'_singleton _, ?_⟩
      intro a ha b hb
      have hb' : b = point.mk x y := Eq.symm (by simpa using hb)
      have ha' := ih.2 a ha
      subst hb'
      rw [← ha']
      exact not_lt.mp hd

/-- The three distances from the middle of the base of the isosceles triangle to its edges
are 0, 24 and 24. -/
theorem iso_specTotalDist (E : Env F) (hE : SqrtSpec E.Sqrt) :
    specTotalDist E [⟨30, 40⟩, ⟨90, 40⟩, ⟨60, 80⟩] ⟨60, 40⟩ = 48 := by
  have s1 : distToSegment E ⟨60, 40⟩ ⟨30, 40⟩ ⟨90, 40⟩ = 0 := by
    simp only [distToSegment, distSquared]
    norm_num
    exact dist_eq_of_sq E hE (le_refl 0) (by norm_num)
  have s2 : distToSegment E ⟨60, 40⟩ ⟨90, 40⟩ ⟨60, 80⟩ = 24 := by
    simp only [distToSegment, distSquared]
    norm_num
    exact dist_eq_of_sq E hE (by norm_num) (by norm_num)
  have s3 : distToSegment E ⟨60, 40⟩ ⟨60, 80⟩ ⟨30, 40⟩ = 24 := by
    simp only [distToSegment, distSquared]
    norm_num
    exact dist_eq_of_sq E hE (by norm_num) (by norm_num)
  simp only [specTotalDist]
  simp [List.range_succ, s1, s2, s3]
  norm_num

/-- Two different points are at a positive distance. -/
theorem dist_pos_of_ne (E : Env F) (hE : SqrtSpec E.Sqrt) (a b : point F) (hab : a ≠ b) :
    0 < dist E a.X a.Y b.X b.Y := by
  rcases lt_or_eq_of_le (dist_nonneg E hE a.X a.Y b.X b.Y) with h | h
  · exact h
  · exfalso
    have hs : 0 ≤ (a.X - b.X) * (a.X - b.X) + (a.Y - b.Y) * (a.Y - b.Y) :=
      add_nonneg (mul_self_nonneg _) (mul_self_nonneg _)
    have h1 := hE.mul_self _ hs
    unfold dist at h
    rw [← h, mul_zero] at h1
    have hx : (a.X - b.X) * (a.X - b.X) = 0 := by
      nlinarith [mul_self_nonneg (a.X - b.X), mul_self_nonneg (a.Y - b.Y)]
    have hy : (a.Y - b.Y) * (a.Y - b.Y) = 0 := by
      nlinarith [mul_self_nonneg (a.X - b.X), mul_self_nonneg (a.Y - b.Y)]
    apply hab
    cases a
    cases b
    simp only [point.mk.injEq]
    exact ⟨sub_eq_zero.mp (mul_self_eq_zero.mp hx), sub_eq_zero.mp (mul_self_eq_zero.mp hy)⟩

/-- The final `maxDist` is at least the distance of any two points of the list, in either
order. -/
theorem dist_le_maxDist (E : Env F) (hE : SqrtSpec E.Sqrt) (pts : List (point F)) :
    ∀ p ∈ pts, ∀ q ∈ pts, dist E p.X p.Y q.X q.Y ≤ (maxPair E pts).maxDist := by
  have hpw := scanPairs_le E pts ⟨0, ⟨0, 0⟩, ⟨0, 0⟩⟩
  refine List.Pairwise.forall_of_forall ?_ ?_ hpw.2
  · intro a b hab
    rw [dist_comm]
    exact hab
  · intro a _
    rw [dist_self E hE]
    exact hpw.1

/-- A list with two different points has a positive fitted radius. -/
theorem fitRadius_pos (E : Env F) (hE : SqrtSpec E.Sqrt) (pts : List (point F))
    (a b : point F) (ha : a ∈ pts) (hb : b ∈ pts) (hab : a ≠ b) :
    0 < fitRadius E pts := by
  have h1 := dist_pos_of_ne E hE a b hab
  have h2 := dist_le_maxDist E hE pts a ha b hb
  have h3 := fitRadius_eq E hE pts
  linarith

/-- The result of `distToSegment` is non-negative. -/
theorem distToSegment_nonneg (E : Env F) (hE : SqrtSpec E.Sqrt) (p v w : point F) :
    0 ≤ distToSegment E p v w := by
  unfold distToSegment
  dsimp only
  split_ifs <;> exact dist_nonneg E hE _ _ _ _

/-- A running sum of non-negative terms is non-negative. -/
theorem foldl_add_nonneg {α : Type} (f : α → F) (hf : ∀ a, 0 ≤ f a) (l : List α) (x : F)
    (hx : 0 ≤ x) : 0 ≤ l.foldl (fun acc a => acc + f a) x := by
  induction l generalizing x with
  | nil => exact hx
  | cons a l ih => exact ih _ (add_nonneg hx (hf a))

/-- The sum `totalDist` is non-negative. -/
theorem totalDist_nonneg (E : Env F) (hE : SqrtSpec E.Sqrt) (pts : List (point F)) :
    0 ≤ totalDist E pts := by
  unfold totalDist
  exact foldl_add_nonneg _ (fun _ => distToSegment_nonneg E hE _ _ _) _ 0 (le_refl 0)

/-- The value of the quality formula when neither divisor is zero. -/
theorem quality_of_ne_zero (E : Env F) (pts : List (point F))
    (hr : fitRadius E pts ≠ 0) (hn : (pts.length : F) ≠ 0) :
    quality E pts =
      if allInCircle E pts then fval.fin 100
      else fval.fin ((1 - totalDist E pts / fitRadius E pts / (pts.length : F)) * 100) := by
  unfold quality
  split_ifs
  · rfl
  · simp only [fdiv, if_neg hr, fval.divFin, if_neg hn, fval.rsub, fval.mulFin]

/-- A square root is strictly above every number whose square is below its argument. -/
theorem lt_sqrt_of_spec {sqrt : F → F} (hE : SqrtSpec sqrt) {c x : F}
    (h : c * c < x) : c < sqrt x := by
  by_contra hn
  have h1 : sqrt x ≤ c := not_lt.mp hn
  have h2 : sqrt x * sqrt x ≤ c * c := mul_self_le_mul_self (hE.nonneg x) h1
  have h3 := hE.mul_self x (le_trans (mul_self_nonneg c) (le_of_lt h))
  linarith

/-- The diagonal of the square of side 10 is longer than its side. -/
theorem sqrt_200_gt (E : Env F) (hE : SqrtSpec E.Sqrt) : 10 < E.Sqrt 200 :=
  lt_sqrt_of_spec hE (by norm_num)

/-- Half the diagonal of the square of side 10 is the distance of a corner from the
middle. -/
theorem sqrt_50_eq (E : Env F) (hE : SqrtSpec E.Sqrt) : E.Sqrt 50 = E.Sqrt 200 / 2 := by
  have h1 := hE.mul_self 50 (by norm_num)
  have h2 := hE.mul_self 200 (by norm_num)
  refine (mul_self_inj (hE.nonneg _) (div_nonneg (hE.nonneg _) (by norm_num))).mp ?_
  rw [h1]
  have : E.Sqrt 200 / 2 * (E.Sqrt 200 / 2) = E.Sqrt 200 * E.Sqrt 200 / 4 := by ring
  rw [this, h2]
  norm_num

/-- The scan of the square stops at its first diagonal. -/
theorem square_maxPair (E : Env F) (hE : SqrtSpec E.Sqrt) :
    maxPair E [⟨5, 5⟩, ⟨-5, 5⟩, ⟨-5, -5⟩, ⟨5, -5⟩] = ⟨E.Sqrt 200, ⟨5, 5⟩, ⟨-5, -5⟩⟩ := by
  have hD := sqrt_200_gt E hE
  have h01 : dist E 5 5 (-5) 5 = 10 := dist_eq_of_sq E hE (by norm_num) (by norm_num)
  have h03 : dist E 5 5 5 (-5) = 10 := dist_eq_of_sq E hE (by norm_num) (by norm_num)
  have h12 : dist E (-5) 5 (-5) (-5) = 10 := dist_eq_of_sq E hE (by norm_num) (by norm_num)
  have h23 : dist E (-5) (-5) 5 (-5) = 10 := dist_eq_of_sq E hE (by norm_num) (by norm_num)
  have h02 : dist E 5 5 (-5) (-5) = E.Sqrt 200 := by unfold dist; norm_num
  have h13 : dist E (-5) 5 5 (-5) = E.Sqrt 200 := by unfold dist; norm_num
  simp only [maxPair, scanPairs, List.foldl, scanStep, h01, h02, h03, h12, h13, h23]
  have e1 : (10 : F) > 0 := by norm_num
  have e2 : ¬ (10 : F) > E.Sqrt 200 := not_lt.mpr (le_of_lt hD)
  have e3 : ¬ E.Sqrt 200 > E.Sqrt 200 := lt_irrefl _
  simp only [e1, hD, e2, e3, if_true, if_false, gt_iff_lt]

/-- The fitted center of the square is its middle. -/
theorem square_center (E : Env F) (hE : SqrtSpec E.Sqrt) :
    fitCenter E [⟨5, 5⟩, ⟨-5, 5⟩, ⟨-5, -5⟩, ⟨5, -5⟩] = ⟨0, 0⟩ := by
  simp only [fitCenter, square_maxPair E hE]
  norm_num

/-- The fitted radius of the square is half its diagonal. -/
theorem square_radius (E : Env F) (hE : SqrtSpec E.Sqrt) :
    fitRadius E [⟨5, 5⟩, ⟨-5, 5⟩, ⟨-5, -5⟩, ⟨5, -5⟩] = E.Sqrt 200 / 2 := by
  have h02 : dist E 5 5 (-5) (-5) = E.Sqrt 200 := by unfold dist; norm_num
  simp only [fitRadius, square_maxPair E hE, h02]

/-- Every corner of the square passes the containment test: it is at distance exactly the
radius from the center. -/
theorem square_allInCircle (E : Env F) (hE : SqrtSpec E.Sqrt) :
    allInCircle E [⟨5, 5⟩, ⟨-5, 5⟩, ⟨-5, -5⟩, ⟨5, -5⟩] = true := by
  have h0 : dist E 5 5 0 0 = E.Sqrt 200 / 2 := by
    rw [← sqrt_50_eq E hE]; unfold dist; norm_num
  have h1 : dist E (-5) 5 0 0 = E.Sqrt 200 / 2 := by
    rw [← sqrt_50_eq E hE]; unfold dist; norm_num
  have h2 : dist E (-5) (-5) 0 0 = E.Sqrt 200 / 2 := by
    rw [← sqrt_50_eq E hE]; unfold dist; norm_num
  have h3 : dist E 5 (-5) 0 0 = E.Sqrt 200 / 2 := by
    rw [← sqrt_50_eq E hE]; unfold dist; norm_num
  simp [allInCircle, square_center E hE, square_radius E hE, h0, h1, h2, h3]

/-- A square root is monotone on the non-negative numbers. -/
theorem sqrt_le_sqrt_of_spec {sqrt : F → F} (hE : SqrtSpec sqrt) {x y : F} (hx : 0 ≤ x)
    (h : x ≤ y) : sqrt x ≤ sqrt y := by
  by_contra hn
  have h1 : sqrt y < sqrt x := not_le.mp hn
  have h2 : sqrt y * sqrt y < sqrt x * sqrt x :=
    mul_self_lt_mul_self (hE.nonneg y) h1
  rw [hE.mul_self x hx, hE.mul_self y (le_trans hx h)] at h2
  exact absurd h (not_le.mpr h2)

/-- An inequality between square roots of non-negative numbers is one between the
numbers. -/
theorem le_of_sqrt_le_of_spec {sqrt : F → F} (hE : SqrtSpec sqrt) {x y : F} (hx : 0 ≤ x)
    (hy : 0 ≤ y) (h : sqrt x ≤ sqrt y) : x ≤ y := by
  have h2 : sqrt x * sqrt x ≤ sqrt y * sqrt y := mul_self_le_mul_self (hE.nonneg x) h
  rwa [hE.mul_self x hx, hE.mul_self y hy] at h2

/-- The algebra of the containment test on a line: a point `p` on the line through `a` and
`b` that is no farther from `a` and from `b` than they are from each other is within
half their distance of their midpoint (all distances squared). -/
theorem sq_midpoint_le_of_collinear (ax ay bx by_ px py : F)
    (h1 : (px - ax) * (px - ax) + (py - ay) * (py - ay) ≤
      (ax - bx) * (ax - bx) + (ay - by_) * (ay - by_))
    (h2 : (px - bx) * (px - bx) + (py - by_) * (py - by_) ≤
      (ax - bx) * (ax - bx) + (ay - by_) * (ay - by_))
    (hc : (bx - ax) * (py - ay) - (by_ - ay) * (px - ax) = 0) :
    (px - (ax + bx) / 2) * (px - (ax + bx) / 2) + (py - (ay + by_) / 2) * (py - (ay + by_) / 2)
      ≤ ((ax - bx) * (ax - bx) + (ay - by_) * (ay - by_)) / 4 := by
  set W := (px - ax) * (px - ax) + (py - ay) * (py - ay) with hW
  set U := (bx - ax) * (bx - ax) + (by_ - ay) * (by_ - ay) with hU
  set D := (px - ax) * (bx - ax) + (py - ay) * (by_ - ay) with hD
  have hW0 : 0 ≤ W := add_nonneg (mul_self_nonneg _) (mul_self_nonneg _)
  have e1 : (ax - bx) * (ax - bx) + (ay - by_) * (ay - by_) = U := by rw [hU]; ring
  have e2 : (px - bx) * (px - bx) + (py - by_) * (py - by_) = W - 2 * D + U := by
    rw [hW, hU, hD]; ring
  have e3 : D * D = W * U := by
    have : W * U - D * D =
        ((bx - ax) * (py - ay) - (by_ - ay) * (px - ax)) *
          ((bx - ax) * (py - ay) - (by_ - ay) * (px - ax)) := by
      rw [hW, hU, hD]; ring
    rw [hc, mul_zero] at this
    linarith
  rw [e1] at h1 h2 ⊢
  rw [e2] at h2
  have hD0 : 0 ≤ D := by linarith
  have h3 : W * W ≤ D * D := by
    rw [e3]
    exact mul_le_mul_of_nonneg_left h1 hW0
  have h4 : W ≤ D := (mul_self_le_mul_self_iff hW0 hD0).mpr h3
  have e4 : (px - (ax + bx) / 2) * (px - (ax + bx) / 2) +
      (py - (ay + by_) / 2) * (py - (ay + by_) / 2) = W - D + U / 4 := by
    rw [hW, hU, hD]; ring
  rw [e4]
  linarith

/-- The containment test on a line, with the distances of the program. -/
theorem dist_midpoint_le_of_collinear (E : Env F) (hE : SqrtSpec E.Sqrt) (a b p : point F)
    (h1 : dist E p.X p.Y a.X a.Y ≤ dist E a.X a.Y b.X b.Y)
    (h2 : dist E p.X p.Y b.X b.Y ≤ dist E a.X a.Y b.X b.Y)
    (hc : collinear a b p) :
    dist E p.X p.Y ((a.X + b.X) / 2) ((a.Y + b.Y) / 2) ≤ dist E a.X a.Y b.X b.Y / 2 := by
  have n1 : ∀ x y : F, 0 ≤ x * x + y * y := fun x y =>
    add_nonneg (mul_self_nonneg _) (mul_self_nonneg _)
  have k1 := le_of_sqrt_le_of_spec hE (n1 _ _) (n1 _ _) h1
  have k2 := le_of_sqrt_le_of_spec hE (n1 _ _) (n1 _ _) h2
  have k3 := sq_midpoint_le_of_collinear a.X a.Y b.X b.Y p.X p.Y k1 k2 hc
  have k4 := sqrt_le_sqrt_of_spec hE (n1 _ _) k3
  have k5 : E.Sqrt (((a.X - b.X) * (a.X - b.X) + (a.Y - b.Y) * (a.Y - b.Y)) / 4) =
      dist E a.X a.Y b.X b.Y / 2 := by
    refine (mul_self_inj (hE.nonneg _) (div_nonneg (hE.nonneg _) (by norm_num))).mp ?_
    rw [hE.mul_self _ (div_nonneg (n1 _ _) (by norm_num))]
    have := hE.mul_self _ (n1 (a.X - b.X) (a.Y - b.Y))
    linear_combination (-1 / 4 : F) * this
  rw [k5] at k4
  exact k4

/-- The zero-cross-product condition does not depend on which of the points of a collinear
triple play the three roles. -/
theorem collinear_of_mem (a b c : point F) (hcol : collinear a b c) (u v p : point F)
    (hu : u ∈ [a, b, c]) (hv : v ∈ [a, b, c]) (hp : p ∈ [a, b, c]) : collinear u v p := by
  unfold collinear at hcol ⊢
  simp only [List.mem_cons, List.mem_singleton, List.not_mem_nil, or_false] at hu hv hp
  rcases hu with rfl | rfl | rfl <;> rcases hv with rfl | rfl | rfl <;>
    rcases hp with rfl | rfl | rfl <;>
    first
      | ring1
      | linear_combination hcol
      | linear_combination (-1 : F) * hcol

/-- Every point of a collinear triple passes the containment test whenever the scan
selected a pair of the list. -/
theorem allInCircle_of_collinear (E : Env F) (hE : SqrtSpec E.Sqrt) (a b c : point F)
    (hcol : collinear a b c) (hsel : maxPair E [a, b, c] ≠ ⟨0, ⟨0, 0⟩, ⟨0, 0⟩⟩) :
    allInCircle E [a, b, c] = true := by
  rcases maxPair_cases E [a, b, c] with h | ⟨u, v, huv, h⟩
  · exact absurd h hsel
  · have hu : u ∈ [a, b, c] := huv.subset (by simp)
    have hv : v ∈ [a, b, c] := huv.subset (by simp)
    have hmax := dist_le_maxDist E hE [a, b, c]
    unfold allInCircle fitCenter fitRadius
    rw [h]
    dsimp only
    rw [List.all_eq_true]
    intro p hp
    have h1 := hmax p hp u hu
    have h2 := hmax p hp v hv
    rw [h] at h1 h2
    have h3 := dist_midpoint_le_of_collinear E hE u v p h1 h2
      (collinear_of_mem a b c hcol u v p hu hv hp)
    simp only [Bool.not_eq_true', decide_eq_false_iff_not, gt_iff_lt, not_lt]
    exact h3

/-- A square root is at least every number whose square is at most its argument. -/
theorem le_sqrt_of_spec {sqrt : F → F} (hE : SqrtSpec sqrt) {c x : F}
    (h : c * c ≤ x) : c ≤ sqrt x := by
  by_contra hn
  have h1 : sqrt x < c := not_le.mp hn
  have h2 : sqrt x * sqrt x < c * c := mul_self_lt_mul_self (hE.nonneg x) h1
  have h3 := hE.mul_self x (le_trans (mul_self_nonneg c) h)
  linarith

/-- An `update` that returns no error took the acceptance branch. -/
theorem update_none_cases (E : Env F) (g : game F) (x y : F) (tSince tNow : Int)
    (hacc : (update E g x y tSince tNow).2 = none) :
    ¬ dist E x y g.lastPoint.X g.lastPoint.Y < 10 ∧
    ¬ (g.lastTime ≠ zeroTime ∧ since tSince g.lastTime > Millisecond * 100) := by
  by_cases h1 : dist E x y g.lastPoint.X g.lastPoint.Y < 10
  · rw [update_of_close E g x y tSince tNow h1] at hacc
    simp at hacc
  · by_cases h2 : g.lastTime ≠ zeroTime ∧ since tSince g.lastTime > Millisecond * 100
    · rw [update_of_slow E g x y tSince tNow h1 h2] at hacc
      simp at hacc
    · exact ⟨h1, h2⟩

/-- An `update` that returns no error appended the point. -/
theorem update_none_points (E : Env F) (g : game F) (x y : F) (tSince tNow : Int)
    (hacc : (update E g x y tSince tNow).2 = none) :
    (update E g x y tSince tNow).1.points = g.points ++ [point.mk x y] := by
  obtain ⟨h1, h2⟩ := update_none_cases E g x y tSince tNow hacc
  rw [update_of_accept E g x y tSince tNow h1 h2]
  dsimp only
  split_ifs <;> rfl

/-- The first `update` after `start` is accepted when the point is at least 10 from the
origin: `lastTime` is unset, so the pacing check does not apply. -/
theorem first_update_accepted (E : Env F) (hE : SqrtSpec E.Sqrt) (g0 : game F) (x y : F)
    (s n : Int) (h : 100 ≤ x * x + y * y) :
    update E (start g0) x y s n =
      (⟨[⟨x, y⟩], ⟨x, y⟩, n, "", emptyCanvas⟩, none) := by
  have hd : ¬ dist E x y (start g0).lastPoint.X (start g0).lastPoint.Y < 10 := by
    show ¬ dist E x y 0 0 < 10
    unfold dist
    rw [sub_zero, sub_zero]
    exact not_lt.mpr (le_sqrt_of_spec hE (by linarith))
  rw [update_of_accept E (start g0) x y s n hd (by simp [start])]
  simp [start, accepted]

/-- A state whose `lastTime` is set and more than 100 ms old rejects every `update` and
keeps its points, its last point and its last time. -/
theorem update_of_stale (E : Env F) (g : game F) (x y : F) (s n : Int)
    (hset : g.lastTime ≠ zeroTime) (hold : s - g.lastTime > 100 * Millisecond) :
    ((update E g x y s n).2 = some "Too close to last point" ∨
      (update E g x y s n).2 = some "Draw faster") ∧
    (update E g x y s n).1.points = g.points ∧
    (update E g x y s n).1.lastPoint = g.lastPoint ∧
    (update E g x y s n).1.lastTime = g.lastTime := by
  by_cases h1 : dist E x y g.lastPoint.X g.lastPoint.Y < 10
  · rw [update_of_close E g x y s n h1]
    exact ⟨Or.inl rfl, rfl, rfl, rfl⟩
  · rw [update_of_slow E g x y s n h1 ⟨hset, (since_gt_iff s g.lastTime).mpr hold⟩]
    exact ⟨Or.inr rfl, rfl, rfl, rfl⟩

/-- An `update` rejected with "Draw faster" found `lastTime` set and more than 100 ms old,
and changed only `errorMessage`. -/
theorem tooSlow_cases (E : Env F) (g : game F) (x y : F) (s n : Int)
    (hslow : (update E g x y s n).2 = some "Draw faster") :
    g.lastTime ≠ zeroTime ∧ s - g.lastTime > 100 * Millisecond ∧
    (update E g x y s n).1.points = g.points ∧
    (update E g x y s n).1.lastPoint = g.lastPoint ∧
    (update E g x y s n).1.lastTime = g.lastTime := by
  by_cases h1 : dist E x y g.lastPoint.X g.lastPoint.Y < 10
  · rw [update_of_close E g x y s n h1] at hslow
    have hs : some "Too close to last point" = some "Draw faster" := hslow
    exact absurd hs (by decide)
  · by_cases h2 : g.lastTime ≠ zeroTime ∧ since s g.lastTime > Millisecond * 100
    · rw [update_of_slow E g x y s n h1 h2]
      exact ⟨h2.1, (since_gt_iff s g.lastTime).mp h2.2, rfl, rfl, rfl⟩
    · rw [update_of_accept E g x y s n h1 h2] at hslow
      have hs : (none : Option String) = some "Draw faster" := hslow
      exact absurd hs (by decide)

/-- A run of `update` calls on a state whose `lastTime` is set and more than 100 ms older
than every clock reading of the run changes neither the points nor the last time. -/
theorem runUpdates_of_stale (E : Env F) (calls : List (F × F × Int × Int)) (g : game F)
    (s : Int) (hset : g.lastTime ≠ zeroTime) (hold : s - g.lastTime > 100 * Millisecond)
    (hclock : ∀ c ∈ calls, s ≤ c.2.2.1) :
    (runUpdates E g calls).points = g.points ∧
    (runUpdates E g calls).lastTime = g.lastTime := by
  induction calls generalizing g with
  | nil => exact ⟨rfl, rfl⟩
  | cons c calls ih =>
    have hc : s ≤ c.2.2.1 := hclock c (List.mem_cons_self _ _)
    have hold1 : c.2.2.1 - g.lastTime > 100 * Millisecond := by
      have : (100 : Int) * Millisecond < s - g.lastTime := hold
      omega
    have h1 := update_of_stale E g c.1 c.2.1 c.2.2.1 c.2.2.2 hset hold1
    have h2 := ih (update E g c.1 c.2.1 c.2.2.1 c.2.2.2).1
      (by rw [h1.2.2.2]; exact hset) (by rw [h1.2.2.2]; exact hold)
      (fun c' hc' => hclock c' (List.mem_cons_of_mem _ hc'))
    unfold runUpdates at h2 ⊢
    rw [List.foldl_cons]
    exact ⟨h2.1.trans h1.2.1, h2.2.trans h1.2.2.2⟩

/-- A point on the circle of radius 50 around (100, 100) is at least 10 from the origin
(squared distances). -/
theorem circle_far_from_origin (x y : F)
    (hc : (x - 100) * (x - 100) + (y - 100) * (y - 100) = 2500) : 100 ≤ x * x + y * y := by
  have h1 : (x + y - 200) * (x + y - 200) ≤ 5000 := by
    nlinarith [mul_self_nonneg ((x - 100) - (y - 100))]
  have h2 : 129 ≤ x + y := by
    by_contra hn
    have h3 : x + y < 129 := not_le.mp hn
    nlinarith
  nlinarith

/-- The point (0, 40) submitted to `demo1` two hundred milliseconds late is rejected as too
slow. -/
theorem demo1_tooSlow (E : Env F) (hE : SqrtSpec E.Sqrt) :
    (update E (demo1 E) 0 40 200000000 200000000).2 = some "Draw faster" := by
  have hd : dist E 0 40 30 0 = 50 := dist_eq_of_sq E hE (by norm_num) (by norm_num)
  have h1 : ¬ dist E 0 40 30 0 < 10 := by rw [hd]; norm_num
  have h2 : (1000 : Int) ≠ zeroTime ∧ since 200000000 1000 > Millisecond * 100 :=
    ⟨by decide, by rw [since_gt_iff]; decide⟩
  rw [demo1_eq E hE,
    update_of_slow E ⟨[⟨30, 0⟩], ⟨30, 0⟩, 1000, "", emptyCanvas⟩ 0 40 200000000 200000000 h1 h2]

/-- Before the first point is accepted `lastPoint` is the zero point, and the first
accepted point is at least 10 from the origin. -/
theorem reachable_first_point (E : Env F) (g : game F) (h : Reachable E g) :
    (g.points = [] → g.lastPoint = ⟨0, 0⟩) ∧
    ∀ p, g.points.head? = some p → 10 ≤ dist E p.X p.Y 0 0 := by
  induction h with
  | init g0 => exact ⟨fun _ => rfl, fun p hp => by simp [start] at hp⟩
  | restart g _ _ => exact ⟨fun _ => rfl, fun p hp => by simp [start] at hp⟩
  | update g x y tSince tNow _ ih =>
    rcases update_points_cases E g x y tSince tNow with ⟨hp, hl⟩ | ⟨hd, hp, hl⟩
    · rw [hp, hl]; exact ih
    · rw [hp, hl]
      refine ⟨fun h => by simp at h, fun p hp' => ?_⟩
      cases hpts : g.points with
      | nil =>
        rw [hpts] at hp'
        have e : p = point.mk x y := Eq.symm (by simpa using hp')
        subst e
        have hz := ih.1 hpts
        rw [hz] at hd
        exact not_lt.mp hd
      | cons a rest =>
        rw [hpts] at hp'
        have e : p = a := Eq.symm (by simpa using hp')
        subst e
        exact ih.2 p (by rw [hpts]; rfl)

/-- The fitted radius is half the final `maxDist` as soon as that is positive. -/
theorem fitRadius_eq_of_pos (E : Env F) (pts : List (point F))
    (hpos : 0 < (maxPair E pts).maxDist) :
    2 * fitRadius E pts = (maxPair E pts).maxDist := by
  unfold fitRadius
  dsimp only
  rw [mul_div_cancel₀ _ (two_ne_zero)]
  rcases maxPair_cases E pts with h | ⟨a, b, _, h⟩
  · rw [h] at hpos
    exact absurd hpos (lt_irrefl _)
  · rw [h]

/-- A spaced list of at least two points has a final `maxDist` of at least 10. -/
theorem maxDist_ge_of_spaced (E : Env F) (pts : List (point F)) (hs : Spaced E pts)
    (hlen : 2 ≤ pts.length) : 10 ≤ (maxPair E pts).maxDist := by
  match pts, hs, hlen with
  | a :: b :: rest, hs, _ =>
    have h1 : 10 ≤ dist E b.X b.Y a.X a.Y := by
      unfold Spaced at hs
      exact (List.chain'_cons.mp hs).1
    have h2 := (scanPairs_le E (a :: b :: rest) ⟨0, ⟨0, 0⟩, ⟨0, 0⟩⟩).2
    have h3 := (List.pairwise_cons.mp h2).1 b (List.mem_cons_self _ _)
    rw [dist_comm] at h1
    exact le_trans h1 h3

/-- The squared distance from `p` to the point at parameter `t` of the segment is smallest at
the projection parameter `T`. -/
theorem seg_sq_mid (px py vx vy wx wy t T : F)
    (hT : T * ((wx - vx) * (wx - vx) + (wy - vy) * (wy - vy)) =
      (px - vx) * (wx - vx) + (py - vy) * (wy - vy)) :
    (px - (vx + T * (wx - vx))) * (px - (vx + T * (wx - vx))) +
        (py - (vy + T * (wy - vy))) * (py - (vy + T * (wy - vy))) ≤
      (px - (vx + t * (wx - vx))) * (px - (vx + t * (wx - vx))) +
        (py - (vy + t * (wy - vy))) * (py - (vy + t * (wy - vy))) := by
  have hl : 0 ≤ (wx - vx) * (wx - vx) + (wy - vy) * (wy - vy) :=
    add_nonneg (mul_self_nonneg _) (mul_self_nonneg _)
  have hid : (px - (vx + t * (wx - vx))) * (px - (vx + t * (wx - vx))) +
        (py - (vy + t * (wy - vy))) * (py - (vy + t * (wy - vy))) -
      ((px - (vx + T * (wx - vx))) * (px - (vx + T * (wx - vx))) +
        (py - (vy + T * (wy - vy))) * (py - (vy + T * (wy - vy)))) =
      ((wx - vx) * (wx - vx) + (wy - vy) * (wy - vy)) * ((t - T) * (t - T)) := by
    linear_combination (2 * (t - T)) * hT
  have hn := mul_nonneg hl (mul_self_nonneg (t - T))
  linarith

/-- When the projection parameter is negative, the start `v` of the segment is its point
closest to `p` (squared distances). -/
theorem seg_sq_lo (px py vx vy wx wy t T : F)
    (hT : T * ((wx - vx) * (wx - vx) + (wy - vy) * (wy - vy)) =
      (px - vx) * (wx - vx) + (py - vy) * (wy - vy))
    (hneg : T < 0) (ht0 : 0 ≤ t) :
    (px - vx) * (px - vx) + (py - vy) * (py - vy) ≤
      (px - (vx + t * (wx - vx))) * (px - (vx + t * (wx - vx))) +
        (py - (vy + t * (wy - vy))) * (py - (vy + t * (wy - vy))) := by
  have hl : 0 ≤ (wx - vx) * (wx - vx) + (wy - vy) * (wy - vy) :=
    add_nonneg (mul_self_nonneg _) (mul_self_nonneg _)
  have hid : (px - (vx + t * (wx - vx))) * (px - (vx + t * (wx - vx))) +
        (py - (vy + t * (wy - vy))) * (py - (vy + t * (wy - vy))) -
      ((px - vx) * (px - vx) + (py - vy) * (py - vy)) =
      ((wx - vx) * (wx - vx) + (wy - vy) * (wy - vy)) * (t * (t - 2 * T)) := by
    linear_combination (2 * t) * hT
  have hn := mul_nonneg hl (mul_nonneg ht0 (by linarith : 0 ≤ t - 2 * T))
  linarith

/-- When the projection parameter is above 1, the end `w` of the segment is its point
closest to `p` (squared distances). -/
theorem seg_sq_hi (px py vx vy wx wy t T : F)
    (hT : T * ((wx - vx) * (wx - vx) + (wy - vy) * (wy - vy)) =
      (px - vx) * (wx - vx) + (py - vy) * (wy - vy))
    (hgt : 1 < T) (ht1 : t ≤ 1) :
    (px - wx) * (px - wx) + (py - wy) * (py - wy) ≤
      (px - (vx + t * (wx - vx))) * (px - (vx + t * (wx - vx))) +
        (py - (vy + t * (wy - vy))) * (py - (vy + t * (wy - vy))) := by
  have hl : 0 ≤ (wx - vx) * (wx - vx) + (wy - vy) * (wy - vy) :=
    add_nonneg (mul_self_nonneg _) (mul_self_nonneg _)
  have hid : (px - (vx + t * (wx - vx))) * (px - (vx + t * (wx - vx))) +
        (py - (vy + t * (wy - vy))) * (py - (vy + t * (wy - vy))) -
      ((px - wx) * (px - wx) + (py - wy) * (py - wy)) =
      ((wx - vx) * (wx - vx) + (wy - vy) * (wy - vy)) * ((1 - t) * (2 * T - 1 - t)) := by
    linear_combination (2 * (t - 1)) * hT
  have hn := mul_nonneg hl
    (mul_nonneg (by linarith : 0 ≤ 1 - t) (by linarith : 0 ≤ 2 * T - 1 - t))
  linarith

/-- A sum of two squares is non-negative. -/
theorem sq_add_sq_nonneg (x y : F) : 0 ≤ x * x + y * y :=
  add_nonneg (mul_self_nonneg _) (mul_self_nonneg _)

/-- The inner loop leaves `maxDist`, `p1`, `p2` alone, or leaves the distance and the points
of the first inner point (in loop order) at the largest distance it examined, which is
above the `maxDist` it started with. -/
theorem foldl_scanStep_first (E : Env F) (p : point F) (rest : List (point F)) (s : scan F) :
    rest.foldl (scanStep E p) s = s ∨
    ∃ (k : Nat) (q : point F), rest[k]? = some q ∧
      rest.foldl (scanStep E p) s = ⟨dist E p.X p.Y q.X q.Y, p, q⟩ ∧
      s.maxDist < dist E p.X p.Y q.X q.Y ∧
      ∀ (k' : Nat) (q' : point F), k' < k → rest[k']? = some q' →
        dist E p.X p.Y q'.X q'.Y < dist E p.X p.Y q.X q.Y := by
  induction rest generalizing s with
  | nil => exact Or.inl rfl
  | cons a rest ih =>
    rw [List.foldl_cons]
    have hstep := scanStep_le E p s a
    rcases ih (scanStep E p s a) with h | ⟨k, q, hq, h, hlt, hfirst⟩
    · rw [h]
      by_cases hd : dist E p.X p.Y a.X a.Y > s.maxDist
      · right
        refine ⟨0, a, by simp, ?_, hd, fun k' q' hk' _ => absurd hk' (Nat.not_lt_zero _)⟩
        unfold scanStep
        dsimp only
        rw [if_pos hd]
      · left
        unfold scanStep
        dsimp only
        rw [if_neg hd]
    · right
      refine ⟨k + 1, q, by simpa using hq, h, lt_of_le_of_lt hstep.1 hlt, ?_⟩
      intro k' q' hk' hq'
      cases k' with
      | zero =>
        have e : q' = a := Eq.symm (by simpa using hq')
        rw [e]
        exact lt_of_le_of_lt hstep.2 hlt
      | succ k'' =>
        exact hfirst k'' q' (by omega) (by simpa using hq')

/-- The nested loops leave `maxDist`, `p1`, `p2` alone, or leave the distance and the points
of the first pair (in loop order: outer index first, then inner index) whose distance is
above the initial `maxDist` and above the distance of every earlier pair. -/
theorem scanPairs_first (E : Env F) (pts : List (point F)) (s : scan F) :
    scanPairs E pts s = s ∨
    ∃ (i j : Nat) (a b : point F), i < j ∧ pts[i]? = some a ∧ pts[j]? = some b ∧
      scanPairs E pts s = ⟨dist E a.X a.Y b.X b.Y, a, b⟩ ∧
      s.maxDist < dist E a.X a.Y b.X b.Y ∧
      ∀ (i' j' : Nat) (a' b' : point F), i' < j' → pts[i']? = some a' → pts[j']? = some b' →
        (i' < i ∨ (i' = i ∧ j' < j)) →
        dist E a'.X a'.Y b'.X b'.Y < dist E a.X a.Y b.X b.Y := by
  induction pts generalizing s with
  | nil => exact Or.inl rfl
  | cons p rest ih =>
    rw [scanPairs]
    have hin := foldl_scanStep_le E p rest s
    rcases ih (rest.foldl (scanStep E p) s) with h | ⟨i, j, a, b, hij, ha, hb, h, hlt, hfirst⟩
    · rw [h]
      rcases foldl_scanStep_first E p rest s with h' | ⟨k, q, hq, h', hlt', hfirst'⟩
      · exact Or.inl h'
      · right
        refine ⟨0, k + 1, p, q, by omega, by simp, by simpa using hq, h', hlt', ?_⟩
        intro i' j' a' b' hij' ha' hb' hlex
        have hi0 : i' = 0 := by omega
        subst hi0
        have ea : a' = p := Eq.symm (by simpa using ha')
        rw [ea]
        cases j' with
        | zero => exact absurd hij' (Nat.lt_irrefl _)
        | succ j'' => exact hfirst' j'' b' (by omega) (by simpa using hb')
    · right
      refine ⟨i + 1, j + 1, a, b, by omega, by simpa using ha, by simpa using hb, h,
        lt_of_le_of_lt hin.1 hlt, ?_⟩
      intro i' j' a' b' hij' ha' hb' hlex
      cases j' with
      | zero => exact absurd hij' (Nat.not_lt_zero _)
      | succ j'' =>
        have hb'' : rest[j'']? = some b' := by simpa using hb'
        cases i' with
        | zero =>
          have ea : a' = p := Eq.symm (by simpa using ha')
          rw [ea]
          exact lt_of_le_of_lt (hin.2 b' (List.getElem?_mem hb'')) hlt
        | succ i'' =>
          exact hfirst i'' j'' a' b' (by omega) (by simpa using ha') hb'' (by omega)

end lemmas

/-! ## The spacing and pacing gates of `update` -/

section gates

variable {F : Type} [LinearOrderedField F]

/-- C1: a point whose distance to `lastPoint` is below 10 is rejected with
"Too close to last point", whatever the two clock readings are (so also when the pacing
limit is exceeded); `points`, `lastPoint`, `lastTime` and `canvas` keep their values and
only `errorMessage` is written. -/
theorem update_tooClose (E : Env F) (g : game F) (x y : F) (tSince tNow : Int)
    (h : dist E x y g.lastPoint.X g.lastPoint.Y < 10) :
    (update E g x y tSince tNow).2 = some "Too close to last point" ∧
    (update E g x y tSince tNow).1.errorMessage = "Too close to last point" ∧
    (update E g x y tSince tNow).1.points = g.points ∧
    (update E g x y tSince tNow).1.lastPoint = g.lastPoint ∧
    (update E g x y tSince tNow).1.lastTime = g.lastTime ∧
    (update E g x y tSince tNow).1.canvas = g.canvas := by
  rw [update_of_close E g x y tSince tNow h]
  exact ⟨rfl, rfl, rfl, rfl, rfl, rfl⟩

/-- Over the reals, (3, 4) is at distance 5 from the origin. -/
theorem real_dist_3_4 : dist (Env.mk Real.sqrt (fun _ => "")) 3 4 0 0 < 10 := by
  show Real.sqrt ((3 - 0) * (3 - 0) + (4 - 0) * (4 - 0)) < 10
  rw [Real.sqrt_lt' (by norm_num)]
  norm_num

/-- C1 at a concrete input: over the reals, with `lastPoint = (0, 0)` and `lastTime = 5`,
the point (3, 4) submitted one second later is rejected as too close, not as too slow. -/
theorem update_tooClose_witness :
    dist (Env.mk Real.sqrt (fun _ => "")) 3 4
        (game.mk [] (point.mk 0 0) 5 "" "").lastPoint.X
        (game.mk [] (point.mk 0 0) 5 "" "").lastPoint.Y < 10 ∧
    (update (Env.mk Real.sqrt (fun _ => "")) (game.mk [] (point.mk 0 0) 5 "" "") 3 4
        1000000005 1000000006).2 = some "Too close to last point" ∧
    (update (Env.mk Real.sqrt (fun _ => "")) (game.mk [] (point.mk 0 0) 5 "" "") 3 4
        1000000005 1000000006).1.lastTime = 5 :=
  ⟨real_dist_3_4,
   (update_tooClose _ _ 3 4 1000000005 1000000006 real_dist_3_4).1,
   (update_tooClose _ _ 3 4 1000000005 1000000006 real_dist_3_4).2.2.2.2.1⟩

/-- C2: when `lastTime` is set and more than 100 ms have elapsed since it, a point that
passes the spacing check is rejected with "Draw faster"; `points`, `lastPoint`,
`lastTime` and `canvas` keep their values and only `errorMessage` is written. -/
theorem update_tooSlow (E : Env F) (g : game F) (x y : F) (tSince tNow : Int)
    (hset : g.lastTime ≠ zeroTime)
    (hslow : tSince - g.lastTime > 100 * Millisecond)
    (hfar : 10 ≤ dist E x y g.lastPoint.X g.lastPoint.Y) :
    (update E g x y tSince tNow).2 = some "Draw faster" ∧
    (update E g x y tSince tNow).1.errorMessage = "Draw faster" ∧
    (update E g x y tSince tNow).1.points = g.points ∧
    (update E g x y tSince tNow).1.lastPoint = g.lastPoint ∧
    (update E g x y tSince tNow).1.lastTime = g.lastTime ∧
    (update E g x y tSince tNow).1.canvas = g.canvas := by
  rw [update_of_slow E g x y tSince tNow (not_lt.mpr hfar)
    ⟨hset, (since_gt_iff tSince g.lastTime).mpr hslow⟩]
  exact ⟨rfl, rfl, rfl, rfl, rfl, rfl⟩

/-- Over the reals, (30, 40) is at distance 50 from the origin. -/
theorem real_dist_30_40 : 10 ≤ dist (Env.mk Real.sqrt (fun _ => "")) 30 40 0 0 := by
  show 10 ≤ Real.sqrt ((30 - 0) * (30 - 0) + (40 - 0) * (40 - 0))
  rw [Real.le_sqrt' (by norm_num)]
  norm_num

/-- C2 at a concrete input: over the reals, with `lastPoint = (0, 0)` and `lastTime = 5`,
the point (30, 40) submitted 100 ms and 1 ns later is rejected as too slow. -/
theorem update_tooSlow_witness :
    (game.mk ([] : List (point ℝ)) (point.mk 0 0) 5 "" "").lastTime ≠ zeroTime ∧
    (100000006 : Int) - (game.mk ([] : List (point ℝ)) (point.mk 0 0) 5 "" "").lastTime
      > 100 * Millisecond ∧
    10 ≤ dist (Env.mk Real.sqrt (fun _ => "")) 30 40 0 0 ∧
    (update (Env.mk Real.sqrt (fun _ => "")) (game.mk [] (point.mk 0 0) 5 "" "") 30 40
        100000006 100000007).2 = some "Draw faster" ∧
    (update (Env.mk Real.sqrt (fun _ => "")) (game.mk [] (point.mk 0 0) 5 "" "") 30 40
        100000006 100000007).1.lastTime = 5 :=
  ⟨by decide, by decide, real_dist_30_40,
   (update_tooSlow _ (game.mk [] (point.mk 0 0) 5 "" "") 30 40 100000006 100000007
      (by decide) (by decide) real_dist_30_40).1,
   (update_tooSlow _ (game.mk [] (point.mk 0 0) 5 "" "") 30 40 100000006 100000007
      (by decide) (by decide) real_dist_30_40).2.2.2.2.1⟩

/-- C3: `update` returns no error exactly when the point is at distance at least 10 from
`lastPoint` and `lastTime` is unset or at most 100 ms old; then `points` is the old
sequence with the point appended (one longer), `lastPoint` is the point and `lastTime`
is the clock reading of line 57. -/
theorem update_accept_iff (E : Env F) (g : game F) (x y : F) (tSince tNow : Int) :
    ((update E g x y tSince tNow).2 = none ↔
      (10 ≤ dist E x y g.lastPoint.X g.lastPoint.Y ∧
        (g.lastTime = zeroTime ∨ tSince - g.lastTime ≤ 100 * Millisecond))) ∧
    ((update E g x y tSince tNow).2 = none →
      (update E g x y tSince tNow).1.points = g.points ++ [point.mk x y] ∧
      (update E g x y tSince tNow).1.points.length = g.points.length + 1 ∧
      (update E g x y tSince tNow).1.lastPoint = point.mk x y ∧
      (update E g x y tSince tNow).1.lastTime = tNow) := by
  by_cases h1 : dist E x y g.lastPoint.X g.lastPoint.Y < 10
  · rw [update_of_close E g x y tSince tNow h1]
    refine ⟨⟨fun h => by simp at h, fun h => absurd h1 (not_lt.mpr h.1)⟩,
      fun h => by simp at h⟩
  · by_cases h2 : g.lastTime ≠ zeroTime ∧ since tSince g.lastTime > Millisecond * 100
    · rw [update_of_slow E g x y tSince tNow h1 h2]
      refine ⟨⟨fun h => by simp at h, fun h => ?_⟩, fun h => by simp at h⟩
      have h3 := (since_gt_iff tSince g.lastTime).mp h2.2
      rcases h.2 with h4 | h4
      · exact absurd h4 h2.1
      · exact absurd h3 (not_lt.mpr h4)
    · rw [update_of_accept E g x y tSince tNow h1 h2]
      refine ⟨⟨fun _ => ⟨not_lt.mp h1, ?_⟩, fun _ => rfl⟩, fun _ => ?_⟩
      · by_cases h5 : g.lastTime = zeroTime
        · exact Or.inl h5
        · right
          by_contra h6
          exact h2 ⟨h5, (since_gt_iff tSince g.lastTime).mpr (not_le.mp h6)⟩
      · dsimp only
        split_ifs <;> simp [accepted]

/-- C4: `start` does not depend on the state it is called on: any two states are reset to
the same state, which has no points, the zero `lastPoint`, an unset `lastTime` and an
empty `errorMessage`; so calling `start` twice is the same as calling it once. -/
theorem start_reset (g1 g2 : game F) :
    start g1 = start g2 ∧
    (start g1).points = [] ∧
    (start g1).lastPoint = point.mk 0 0 ∧
    (start g1).lastTime = zeroTime ∧
    (start g1).errorMessage = "" ∧
    start (start g1) = start g1 :=
  ⟨rfl, rfl, rfl, rfl, rfl, rfl⟩

/-- C15, refuted as stated: over the reals, the points (150, 100), (100, 150), (50, 100) lie on
the circle of radius 50 around (100, 100) and are pairwise more than 10 apart, and the
first `update` after `start` returns no error: it is not rejected as too slow. -/
theorem circle_session_first_accepted :
    ((150 : ℝ) - 100) * (150 - 100) + (100 - 100) * (100 - 100) = 2500 ∧
    ((100 : ℝ) - 100) * (100 - 100) + (150 - 100) * (150 - 100) = 2500 ∧
    ((50 : ℝ) - 100) * (50 - 100) + (100 - 100) * (100 - 100) = 2500 ∧
    10 < dist (Env.mk Real.sqrt (fun _ => "")) 100 150 150 100 ∧
    10 < dist (Env.mk Real.sqrt (fun _ => "")) 50 100 100 150 ∧
    10 < dist (Env.mk Real.sqrt (fun _ => "")) 50 100 150 100 ∧
    (update (Env.mk Real.sqrt (fun _ => "")) (start zeroGame) 150 100 1000 1000).2 = none ∧
    (update (Env.mk Real.sqrt (fun _ => "")) (start zeroGame) 150 100 1000 1000).2
      ≠ some "Draw faster" := by
  have h1 : (update (Env.mk Real.sqrt (fun _ => "")) (start zeroGame) 150 100 1000 1000).2
      = none := by
    rw [first_update_accepted _ sqrtSpec_real zeroGame 150 100 1000 1000 (by norm_num)]
  refine ⟨by norm_num, by norm_num, by norm_num, ?_, ?_, ?_, h1, ?_⟩
  · exact lt_sqrt_of_spec sqrtSpec_real (by norm_num)
  · exact lt_sqrt_of_spec sqrtSpec_real (by norm_num)
  · exact lt_sqrt_of_spec sqrtSpec_real (by norm_num)
  · rw [h1]
    decide

/-- C15, amended: after `start`, three points on the circle of radius 50 around (100, 100),
pairwise more than 10 apart, each submitted more than 100 ms after the previous call
(the clock does not run backwards and its first reading is not the zero time): the first
`update` is accepted, because `lastTime` is unset, and the second and the third are
rejected with "Draw faster"; `points` keeps only the first point. -/
theorem circle_session_paced (E : Env F) (hE : SqrtSpec E.Sqrt) (g0 : game F)
    (x1 y1 x2 y2 x3 y3 : F) (s1 n1 s2 n2 s3 n3 : Int)
    (hc1 : (x1 - 100) * (x1 - 100) + (y1 - 100) * (y1 - 100) = 2500)
    (_hc2 : (x2 - 100) * (x2 - 100) + (y2 - 100) * (y2 - 100) = 2500)
    (_hc3 : (x3 - 100) * (x3 - 100) + (y3 - 100) * (y3 - 100) = 2500)
    (h21 : 10 < dist E x2 y2 x1 y1) (h31 : 10 < dist E x3 y3 x1 y1)
    (_h32 : 10 < dist E x3 y3 x2 y2)
    (hn1 : n1 ≠ zeroTime) (hm2 : s2 ≤ n2)
    (ht2 : s2 - n1 > 100 * Millisecond) (ht3 : s3 - n2 > 100 * Millisecond) :
    (update E (start g0) x1 y1 s1 n1).2 = none ∧
    (update E (start g0) x1 y1 s1 n1).1.points = [point.mk x1 y1] ∧
    (update E (update E (start g0) x1 y1 s1 n1).1 x2 y2 s2 n2).2 = some "Draw faster" ∧
    (update E (update E (update E (start g0) x1 y1 s1 n1).1 x2 y2 s2 n2).1 x3 y3 s3 n3).2
      = some "Draw faster" ∧
    (update E (update E (update E (start g0) x1 y1 s1 n1).1 x2 y2 s2 n2).1 x3 y3 s3 n3).1.points
      = [point.mk x1 y1] := by
  have e1 := first_update_accepted E hE g0 x1 y1 s1 n1 (circle_far_from_origin x1 y1 hc1)
  rw [e1]
  dsimp only
  have e2 := update_of_slow E ⟨[⟨x1, y1⟩], ⟨x1, y1⟩, n1, "", emptyCanvas⟩ x2 y2 s2 n2
    (not_lt.mpr (le_of_lt h21)) ⟨hn1, (since_gt_iff s2 n1).mpr ht2⟩
  rw [e2]
  dsimp only
  have ht3' : s3 - n1 > 100 * Millisecond := by
    have a1 : (100 : Int) * Millisecond < s2 - n1 := ht2
    have a2 : (100 : Int) * Millisecond < s3 - n2 := ht3
    have a3 : (0 : Int) < 100 * Millisecond := by decide
    omega
  have e3 := update_of_slow E ⟨[⟨x1, y1⟩], ⟨x1, y1⟩, n1, "Draw faster", emptyCanvas⟩
    x3 y3 s3 n3 (not_lt.mpr (le_of_lt h31)) ⟨hn1, (since_gt_iff s3 n1).mpr ht3'⟩
  rw [e3]
  exact ⟨rfl, rfl, rfl, rfl, rfl⟩

/-- C15, amended, at a concrete input: over the reals, the points (150, 100), (100, 150),
(50, 100) submitted 200 ms apart: accepted, too slow, too slow. -/
theorem circle_session_paced_witness :
    SqrtSpec (Env.mk Real.sqrt (fun _ => "")).Sqrt ∧
    (1000 : Int) ≠ zeroTime ∧
    (200000000 : Int) - 1000 > 100 * Millisecond ∧
    (400000000 : Int) - 200000000 > 100 * Millisecond ∧
    (update (Env.mk Real.sqrt (fun _ => "")) (start zeroGame) 150 100 1000 1000).2 = none ∧
    (update (Env.mk Real.sqrt (fun _ => ""))
      (update (Env.mk Real.sqrt (fun _ => "")) (start zeroGame) 150 100 1000 1000).1
      100 150 200000000 200000000).2 = some "Draw faster" ∧
    (update (Env.mk Real.sqrt (fun _ => ""))
      (update (Env.mk Real.sqrt (fun _ => ""))
        (update (Env.mk Real.sqrt (fun _ => "")) (start zeroGame) 150 100 1000 1000).1
        100 150 200000000 200000000).1
      50 100 400000000 400000000).2 = some "Draw faster" :=
  have h := circle_session_paced (Env.mk Real.sqrt (fun _ => "")) sqrtSpec_real zeroGame
    150 100 100 150 50 100 1000 1000 200000000 200000000 400000000 400000000
    (by norm_num) (by norm_num) (by norm_num)
    (lt_sqrt_of_spec sqrtSpec_real (by norm_num))
    (lt_sqrt_of_spec sqrtSpec_real (by norm_num))
    (lt_sqrt_of_spec sqrtSpec_real (by norm_num))
    (by decide) (le_refl _) (by decide) (by decide)
  ⟨sqrtSpec_real, by decide, by decide, by decide, h.1, h.2.2.1, h.2.2.2.1⟩

/-- C16, refuted as stated: over the reals, the point (0, 40) submitted 200 ms after the first
point of `demo1` is rejected with "Draw faster", and from the state it leaves no point and
no later clock reading gives an accepted `update`. -/
theorem tooSlow_not_recoverable_counterexample :
    (update (Env.mk Real.sqrt (fun _ => "")) (demo1 (Env.mk Real.sqrt (fun _ => "")))
      0 40 200000000 200000000).2 = some "Draw faster" ∧
    ¬ ∃ (x y : ℝ) (s n : Int), 200000000 ≤ s ∧
      (update (Env.mk Real.sqrt (fun _ => ""))
        (update (Env.mk Real.sqrt (fun _ => "")) (demo1 (Env.mk Real.sqrt (fun _ => "")))
          0 40 200000000 200000000).1 x y s n).2 = none := by
  have hs := demo1_tooSlow (Env.mk Real.sqrt (fun _ => "")) sqrtSpec_real
  refine ⟨hs, ?_⟩
  rintro ⟨x, y, s, n, hsn, hacc⟩
  obtain ⟨hset, hold, _, _, hlt⟩ := tooSlow_cases _ _ _ _ _ _ hs
  have hold1 : s - (update (Env.mk Real.sqrt (fun _ => ""))
      (demo1 (Env.mk Real.sqrt (fun _ => ""))) 0 40 200000000 200000000).1.lastTime
      > 100 * Millisecond := by
    rw [hlt]
    have : (100 : Int) * Millisecond <
        200000000 - (demo1 (Env.mk Real.sqrt (fun _ => ""))).lastTime := hold
    omega
  have h1 := (update_of_stale (Env.mk Real.sqrt (fun _ => "")) _ x y s n
    (by rw [hlt]; exact hset) hold1).1
  rw [hacc] at h1
  rcases h1 with h1 | h1 <;> exact absurd h1 (by decide)

/-- C16, amended: a rejection with "Draw faster" is not recoverable without `start`.  From the
state it leaves, after any further `update` calls whose clock readings are not earlier
than the one of the rejected call, every `update` with such a clock reading is rejected
(too close or too slow) and `points` stays as before the rejection. -/
theorem tooSlow_sticky (E : Env F) (g : game F) (x y : F) (s n : Int)
    (hslow : (update E g x y s n).2 = some "Draw faster")
    (calls : List (F × F × Int × Int)) (hcalls : ∀ c ∈ calls, s ≤ c.2.2.1)
    (x' y' : F) (s' n' : Int) (hclock : s ≤ s') :
    ((update E (runUpdates E (update E g x y s n).1 calls) x' y' s' n').2
        = some "Too close to last point" ∨
      (update E (runUpdates E (update E g x y s n).1 calls) x' y' s' n').2
        = some "Draw faster") ∧
    (update E (runUpdates E (update E g x y s n).1 calls) x' y' s' n').1.points = g.points := by
  obtain ⟨hset, hold, hp, _, hlt⟩ := tooSlow_cases E g x y s n hslow
  have hset1 : (update E g x y s n).1.lastTime ≠ zeroTime := by rw [hlt]; exact hset
  have hold1 : s - (update E g x y s n).1.lastTime > 100 * Millisecond := by
    rw [hlt]; exact hold
  have hrun := runUpdates_of_stale E calls (update E g x y s n).1 s hset1 hold1 hcalls
  have hold2 : s' - (runUpdates E (update E g x y s n).1 calls).lastTime
      > 100 * Millisecond := by
    rw [hrun.2, hlt]
    have : (100 : Int) * Millisecond < s - g.lastTime := hold
    omega
  have h := update_of_stale E (runUpdates E (update E g x y s n).1 calls) x' y' s' n'
    (by rw [hrun.2]; exact hset1) hold2
  exact ⟨h.1, by rw [h.2.1, hrun.1, hp]⟩

/-- C16, amended, at a concrete input: over the reals, after the late point of `demo1` two
more updates leave `points` as it was. -/
theorem tooSlow_sticky_witness :
    (update (Env.mk Real.sqrt (fun _ => "")) (demo1 (Env.mk Real.sqrt (fun _ => "")))
      0 40 200000000 200000000).2 = some "Draw faster" ∧
    (update (Env.mk Real.sqrt (fun _ => ""))
      (runUpdates (Env.mk Real.sqrt (fun _ => ""))
        (update (Env.mk Real.sqrt (fun _ => "")) (demo1 (Env.mk Real.sqrt (fun _ => "")))
          0 40 200000000 200000000).1 [(50, 50, 200000001, 200000002)])
      0 40 200000003 200000004).1.points = (demo1 (Env.mk Real.sqrt (fun _ => ""))).points :=
  have hs := demo1_tooSlow (Env.mk Real.sqrt (fun _ => "")) sqrtSpec_real
  ⟨hs, (tooSlow_sticky _ _ _ _ _ _ hs [(50, 50, 200000001, 200000002)]
    (by intro c hc; rw [List.mem_singleton.mp hc]; decide) 0 40 200000003 200000004
    (by decide)).2⟩

/-- C20: right after `start` every point at distance below 10 from the origin is rejected with
"Too close to last point" and `points` stays empty; and in every reachable state the first
entry of `points` is at distance at least 10 from the origin. -/
theorem first_point_far (E : Env F) :
    (∀ (g0 : game F) (x y : F) (s n : Int), dist E x y 0 0 < 10 →
      (update E (start g0) x y s n).2 = some "Too close to last point" ∧
      (update E (start g0) x y s n).1.points = []) ∧
    (∀ g : game F, Reachable E g → ∀ p, g.points.head? = some p →
      10 ≤ dist E p.X p.Y 0 0) := by
  refine ⟨fun g0 x y s n h => ?_, fun g hg => (reachable_first_point E g hg).2⟩
  have h1 : dist E x y (start g0).lastPoint.X (start g0).lastPoint.Y < 10 := h
  rw [update_of_close E (start g0) x y s n h1]
  exact ⟨rfl, rfl⟩

/-- C20 at a concrete input: over the reals, the point (3, 4) right after `start` is rejected as
too close. -/
theorem first_point_far_witness :
    dist (Env.mk Real.sqrt (fun _ => "")) 3 4 0 0 < 10 ∧
    (update (Env.mk Real.sqrt (fun _ => "")) (start zeroGame) 3 4 1000 1000).2
      = some "Too close to last point" :=
  ⟨real_dist_3_4,
    ((first_point_far (Env.mk Real.sqrt (fun _ => ""))).1 zeroGame 3 4 1000 1000
      real_dist_3_4).1⟩

end gates

/-! ## The spacing invariant of a session -/

section invariants

variable {F : Type} [LinearOrderedField F]

/-- C5: in every state reachable from `start` by `update` and `start` calls, every entry
of `points` is at distance at least 10 from its predecessor in `points`. -/
theorem reachable_spacing (E : Env F) (g : game F) (h : Reachable E g)
    (i : Nat) (hi : i + 1 < g.points.length) :
    10 ≤ dist E (g.points.get ⟨i + 1, hi⟩).X (g.points.get ⟨i + 1, hi⟩).Y
      (g.points.get ⟨i, Nat.lt_of_succ_lt hi⟩).X (g.points.get ⟨i, Nat.lt_of_succ_lt hi⟩).Y := by
  have h1 := (reachable_inv E g h).1
  unfold Spaced at h1
  rw [List.chain'_iff_get] at h1
  exact h1 i (by omega)

/-- C5 at a concrete input: over the reals, after `start` and the points (30, 0) and
(0, 40), the second point is at distance at least 10 from the first. -/
theorem reachable_spacing_witness :
    Reachable (Env.mk Real.sqrt (fun _ => "")) (demo2 (Env.mk Real.sqrt (fun _ => ""))) ∧
    ∃ hi : 0 + 1 < (demo2 (Env.mk Real.sqrt (fun _ => ""))).points.length,
      10 ≤ dist (Env.mk Real.sqrt (fun _ => ""))
        ((demo2 (Env.mk Real.sqrt (fun _ => ""))).points.get ⟨0 + 1, hi⟩).X
        ((demo2 (Env.mk Real.sqrt (fun _ => ""))).points.get ⟨0 + 1, hi⟩).Y
        ((demo2 (Env.mk Real.sqrt (fun _ => ""))).points.get ⟨0, Nat.lt_of_succ_lt hi⟩).X
        ((demo2 (Env.mk Real.sqrt (fun _ => ""))).points.get ⟨0, Nat.lt_of_succ_lt hi⟩).Y :=
  have hr : Reachable (Env.mk Real.sqrt (fun _ => ""))
      (demo2 (Env.mk Real.sqrt (fun _ => ""))) :=
    Reachable.update _ _ _ _ _ (Reachable.update _ _ _ _ _ (Reachable.init zeroGame))
  have hi : 0 + 1 < (demo2 (Env.mk Real.sqrt (fun _ => ""))).points.length := by
    rw [demo2_eq _ sqrtSpec_real]
    decide
  ⟨hr, hi, reachable_spacing _ _ hr 0 hi⟩

end invariants

/-! ## The fitted circle -/

section fitter

variable {F : Type} [LinearOrderedField F]

/-- C6: the radius that `circleFromPoints` returns is half the largest pairwise distance of
the list: every two points of the list are at distance at most twice the radius, a list
of at least two points has two entries at distance exactly twice the radius, and the
radius is non-negative. -/
theorem radius_half_max (E : Env F) (hE : SqrtSpec E.Sqrt) (pts : List (point F)) :
    (∀ p ∈ pts, ∀ q ∈ pts,
      dist E p.X p.Y q.X q.Y ≤ 2 * (circleFromPoints E pts).2.1) ∧
    (2 ≤ pts.length → ∃ (i j : Nat) (p q : point F), i < j ∧ pts[i]? = some p ∧ pts[j]? = some q ∧
      dist E p.X p.Y q.X q.Y = 2 * (circleFromPoints E pts).2.1) ∧
    0 ≤ (circleFromPoints E pts).2.1 := by
  show (∀ p ∈ pts, ∀ q ∈ pts, dist E p.X p.Y q.X q.Y ≤ 2 * fitRadius E pts) ∧
    (2 ≤ pts.length → ∃ (i j : Nat) (p q : point F), i < j ∧ pts[i]? = some p ∧ pts[j]? = some q ∧
      dist E p.X p.Y q.X q.Y = 2 * fitRadius E pts) ∧
    0 ≤ fitRadius E pts
  have hpw := (scanPairs_le E pts ⟨0, ⟨0, 0⟩, ⟨0, 0⟩⟩)
  have hR := fitRadius_eq E hE pts
  have h0 : 0 ≤ 2 * fitRadius E pts := by rw [hR]; exact hpw.1
  refine ⟨?_, ?_, by linarith⟩
  · rw [hR]
    refine List.Pairwise.forall_of_forall ?_ ?_ hpw.2
    · intro a b hab
      rw [dist_comm]
      exact hab
    · intro a _
      rw [dist_self E hE]
      exact hpw.1
  · intro hlen
    rcases maxPair_cases E pts with h | ⟨a, b, hab, h⟩
    · match pts, hlen, hpw, hR, h with
      | a :: b :: rest, _, hpw, hR, h =>
        refine ⟨0, 1, a, b, by omega, by simp, by simp, ?_⟩
        have h1 := (List.pairwise_cons.mp hpw.2).1 b (List.mem_cons_self _ _)
        rw [hR]
        change maxPair E (a :: b :: rest) = _ at h
        change dist E a.X a.Y b.X b.Y ≤ (maxPair E (a :: b :: rest)).maxDist at h1
        rw [h] at h1 ⊢
        exact le_antisymm h1 (dist_nonneg E hE _ _ _ _)
    · obtain ⟨i, j, hij, hi, hj⟩ := sublist_pair_index a b pts hab
      refine ⟨i, j, a, b, hij, hi, hj, ?_⟩
      rw [hR, h]

/-- C6 at a concrete input: over the reals, the right triangle (30, 0), (0, 40), (30, 40)
has a non-negative fitted radius, and its first two corners are at most a diameter
apart. -/
theorem radius_half_max_witness :
    SqrtSpec (Env.mk Real.sqrt (fun _ => "")).Sqrt ∧
    0 ≤ (circleFromPoints (Env.mk Real.sqrt (fun _ => ""))
      [point.mk 30 0, point.mk 0 40, point.mk 30 40]).2.1 ∧
    dist (Env.mk Real.sqrt (fun _ => "")) 30 0 0 40 ≤
      2 * (circleFromPoints (Env.mk Real.sqrt (fun _ => ""))
        [point.mk 30 0, point.mk 0 40, point.mk 30 40]).2.1 :=
  ⟨sqrtSpec_real,
   (radius_half_max (Env.mk Real.sqrt (fun _ => "")) sqrtSpec_real
      [point.mk 30 0, point.mk 0 40, point.mk 30 40]).2.2,
   (radius_half_max (Env.mk Real.sqrt (fun _ => "")) sqrtSpec_real
      [point.mk 30 0, point.mk 0 40, point.mk 30 40]).1
      (point.mk 30 0) (by simp) (point.mk 0 40) (by simp)⟩


/-- C7: the code at the list of two copies of the point (3, 4), over the reals: no pair
passes the test `d > maxDist`, so `p1` and `p2` keep their zero values and the returned
center is (0, 0) with radius 0; that center is not the midpoint of any two points of the
list. -/
theorem coincident_center_not_midpoint :
    (circleFromPoints (Env.mk Real.sqrt (fun _ => ""))
      [point.mk 3 4, point.mk 3 4]).1 = point.mk 0 0 ∧
    (circleFromPoints (Env.mk Real.sqrt (fun _ => ""))
      [point.mk 3 4, point.mk 3 4]).2.1 = 0 ∧
    ∀ p1 ∈ [point.mk (3 : ℝ) 4, point.mk 3 4], ∀ p2 ∈ [point.mk (3 : ℝ) 4, point.mk 3 4],
      (circleFromPoints (Env.mk Real.sqrt (fun _ => ""))
        [point.mk 3 4, point.mk 3 4]).1 ≠ point.mk ((p1.X + p2.X) / 2) ((p1.Y + p2.Y) / 2) := by
  have hc : (circleFromPoints (Env.mk Real.sqrt (fun _ => ""))
      [point.mk 3 4, point.mk 3 4]).1 = point.mk 0 0 := coin_center _ sqrtSpec_real
  have hr : (circleFromPoints (Env.mk Real.sqrt (fun _ => ""))
      [point.mk 3 4, point.mk 3 4]).2.1 = 0 := coin_radius _ sqrtSpec_real
  refine ⟨hc, hr, ?_⟩
  intro p1 h1 p2 h2
  rw [hc]
  have e1 : p1 = point.mk 3 4 := by simpa using h1
  have e2 : p2 = point.mk 3 4 := by simpa using h2
  subst e1 e2
  intro h
  have hx := congrArg point.X h
  norm_num at hx

/-- C8: the code at two concrete sessions over the reals.  The third point of the right
triangle (30, 0), (0, 40), (30, 40) is accepted, the buffer then holds 3 points that all
pass the containment test (quality 100, flag false), and the canvas is not touched.
The third point of the isosceles triangle (30, 40), (90, 40), (60, 80) is flagged (flag
true), and the canvas changes.  The code appends the annotation when the flag is true,
not when it is false. -/
theorem annotation_gate_inverted :
    ((demo2 (Env.mk Real.sqrt (fun _ => ""))).points ++ [point.mk 30 40]).length = 3 ∧
    quality (Env.mk Real.sqrt (fun _ => ""))
      ((demo2 (Env.mk Real.sqrt (fun _ => ""))).points ++ [point.mk 30 40]) = fval.fin 100 ∧
    (circleFromPoints (Env.mk Real.sqrt (fun _ => ""))
      ((demo2 (Env.mk Real.sqrt (fun _ => ""))).points ++ [point.mk 30 40])).2.2 = false ∧
    (update (Env.mk Real.sqrt (fun _ => "")) (demo2 (Env.mk Real.sqrt (fun _ => "")))
      30 40 3000 3000).2 = none ∧
    (update (Env.mk Real.sqrt (fun _ => "")) (demo2 (Env.mk Real.sqrt (fun _ => "")))
      30 40 3000 3000).1.canvas = (demo2 (Env.mk Real.sqrt (fun _ => ""))).canvas ∧
    (circleFromPoints (Env.mk Real.sqrt (fun _ => ""))
      ((iso2 (Env.mk Real.sqrt (fun _ => ""))).points ++ [point.mk 60 80])).2.2 = true ∧
    (update (Env.mk Real.sqrt (fun _ => "")) (iso2 (Env.mk Real.sqrt (fun _ => "")))
      60 80 3000 3000).1.canvas ≠ (iso2 (Env.mk Real.sqrt (fun _ => ""))).canvas := by
  have h2 := demo2_eq (Env.mk Real.sqrt (fun _ => "")) sqrtSpec_real
  have h3 := demo3_step (Env.mk Real.sqrt (fun _ => "")) sqrtSpec_real
  have ha := tri_allInCircle (Env.mk Real.sqrt (fun _ => "")) sqrtSpec_real
  have hr := tri_red (Env.mk Real.sqrt (fun _ => "")) sqrtSpec_real
  have i2 := iso2_eq (Env.mk Real.sqrt (fun _ => "")) sqrtSpec_real
  have i3 := iso3_eq (Env.mk Real.sqrt (fun _ => "")) sqrtSpec_real
  have ir := iso_red (Env.mk Real.sqrt (fun _ => "")) sqrtSpec_real
  unfold iso3 at i3
  rw [h3, i3, h2, i2]
  refine ⟨rfl, ?_, hr, rfl, rfl, ir, append_annotation_ne _ _ _ _ _⟩
  simp only [List.cons_append, List.nil_append, quality, ha, if_true]

/-- C9: when `update` changes the canvas, it appends the annotation of the fitted center
and radius whose colour is `colorOf percent`, with
`percent = 100 - (sum of |dist(p, center) - radius| over the buffer) / n * 100`; the colour
is green exactly for `percent >= 95`, orange exactly for `90 <= percent < 95` and red
exactly for `percent < 90`, so 95 is green, 94.999 and 90 are orange and 89.999 is red. -/
theorem update_color (E : Env F) (g : game F) (x y : F) (tSince tNow : Int)
    (hemit : (update E g x y tSince tNow).1.canvas ≠ g.canvas) :
    (update E g x y tSince tNow).1.canvas = g.canvas ++
      circleMarkup E (circleFromPoints E (g.points ++ [point.mk x y])).1
        (circleFromPoints E (g.points ++ [point.mk x y])).2.1
        (colorOf (100 -
          ((g.points ++ [point.mk x y]).map fun p =>
            |dist E p.X p.Y (circleFromPoints E (g.points ++ [point.mk x y])).1.X
                (circleFromPoints E (g.points ++ [point.mk x y])).1.Y
              - (circleFromPoints E (g.points ++ [point.mk x y])).2.1|).sum
            / ((g.points ++ [point.mk x y]).length : F) * 100)) ∧
    (∀ percent : F, (colorOf percent = "green" ↔ 95 ≤ percent) ∧
      (colorOf percent = "orange" ↔ 90 ≤ percent ∧ percent < 95) ∧
      (colorOf percent = "red" ↔ percent < 90)) ∧
    colorOf (95 : F) = "green" ∧ colorOf (94999 / 1000 : F) = "orange" ∧
    colorOf (90 : F) = "orange" ∧ colorOf (89999 / 1000 : F) = "red" := by
  refine ⟨?_, fun percent => ⟨colorOf_green percent, colorOf_orange percent,
    colorOf_red percent⟩, ?_, ?_, ?_, ?_⟩
  · rcases update_canvas_cases E g x y tSince tNow with h | h
    · exact absurd h hemit
    · rw [h, ← radialDiff_eq_sum]
      rfl
  · exact (colorOf_green _).mpr (le_refl _)
  · exact (colorOf_orange _).mpr ⟨by norm_num, by norm_num⟩
  · exact (colorOf_orange _).mpr ⟨le_refl _, by norm_num⟩
  · exact (colorOf_red _).mpr (by norm_num)

/-- C9 at a concrete input: over the reals, the third point of the isosceles triangle
(30, 40), (90, 40), (60, 80) changes the canvas, and the annotation has the center
(60, 40), the radius 30 and the colour red. -/
theorem update_color_witness :
    (update (Env.mk Real.sqrt (fun _ => "")) (iso2 (Env.mk Real.sqrt (fun _ => "")))
        60 80 3000 3000).1.canvas ≠ (iso2 (Env.mk Real.sqrt (fun _ => ""))).canvas ∧
    (update (Env.mk Real.sqrt (fun _ => "")) (iso2 (Env.mk Real.sqrt (fun _ => "")))
        60 80 3000 3000).1.canvas =
      (iso2 (Env.mk Real.sqrt (fun _ => ""))).canvas ++
        circleMarkup (Env.mk Real.sqrt (fun _ => "")) (point.mk 60 40) 30 "red" := by
  have hne : (update (Env.mk Real.sqrt (fun _ => "")) (iso2 (Env.mk Real.sqrt (fun _ => "")))
        60 80 3000 3000).1.canvas ≠ (iso2 (Env.mk Real.sqrt (fun _ => ""))).canvas := by
    have h3 := iso3_eq (Env.mk Real.sqrt (fun _ => "")) sqrtSpec_real
    unfold iso3 at h3
    rw [h3, iso2_eq _ sqrtSpec_real]
    exact append_annotation_ne _ _ _ _ _
  refine ⟨hne, ?_⟩
  have h := (update_color _ _ 60 80 3000 3000 hne).1
  rw [h, ← radialDiff_eq_sum]
  have h2 := iso2_eq (Env.mk Real.sqrt (fun _ => "")) sqrtSpec_real
  have hc := iso_center (Env.mk Real.sqrt (fun _ => "")) sqrtSpec_real
  have hr := iso_radius (Env.mk Real.sqrt (fun _ => "")) sqrtSpec_real
  have hp := iso_percent (Env.mk Real.sqrt (fun _ => "")) sqrtSpec_real
  have hcol : colorOf (-700 / 3 : ℝ) = "red" := (colorOf_red _).mpr (by norm_num)
  show _ ++ circleMarkup _ (fitCenter _ _) (fitRadius _ _)
    (colorOf (percentOf _ _ (fitCenter _ _) (fitRadius _ _))) = _
  rw [h2]
  simp only [List.cons_append, List.nil_append]
  rw [hc, hr, hp, hcol]

/-- C10: the code at the list of two copies of the point (3, 4), over the reals: the
fitted radius is 0, the containment test fails, and the quality formula divides the
total 0 by the radius 0: the quality is NaN. -/
theorem coincident_quality_nan :
    2 ≤ [point.mk (3 : ℝ) 4, point.mk 3 4].length ∧
    (circleFromPoints (Env.mk Real.sqrt (fun _ => ""))
      [point.mk 3 4, point.mk 3 4]).2.1 = 0 ∧
    allInCircle (Env.mk Real.sqrt (fun _ => "")) [point.mk 3 4, point.mk 3 4] = false ∧
    totalDist (Env.mk Real.sqrt (fun _ => "")) [point.mk 3 4, point.mk 3 4] = 0 ∧
    quality (Env.mk Real.sqrt (fun _ => "")) [point.mk 3 4, point.mk 3 4] = fval.nan ∧
    (circleFromPoints (Env.mk Real.sqrt (fun _ => ""))
      [point.mk 3 4, point.mk 3 4]).2.2 = false := by
  refine ⟨by decide, coin_radius _ sqrtSpec_real, coin_allInCircle _ sqrtSpec_real,
    coin_totalDist _ sqrtSpec_real, coin_quality _ sqrtSpec_real, ?_⟩
  have hq := coin_quality (Env.mk Real.sqrt (fun _ => "")) sqrtSpec_real
  simp only [circleFromPoints, hq, fval.ltFin]

/-- C11: the code at the isosceles triangle (30, 40), (90, 40), (60, 80), over the reals.  The
apex fails the containment test, the fitted center is (60, 40) and the radius 30.  The
sum of the distances from the center to the three edges is 48, but `totalDist` is 100:
line 126 passes `points[i]` as the point and `points[j]`, `center` as the segment.  So the
quality is (1 - 100 / 30 / 3) * 100 and not (1 - 48 / 30 / 3) * 100. -/
theorem quality_segment_argument_order :
    allInCircle (Env.mk Real.sqrt (fun _ => ""))
      [point.mk 30 40, point.mk 90 40, point.mk 60 80] = false ∧
    (circleFromPoints (Env.mk Real.sqrt (fun _ => ""))
      [point.mk 30 40, point.mk 90 40, point.mk 60 80]).1 = point.mk 60 40 ∧
    (circleFromPoints (Env.mk Real.sqrt (fun _ => ""))
      [point.mk 30 40, point.mk 90 40, point.mk 60 80]).2.1 = 30 ∧
    specTotalDist (Env.mk Real.sqrt (fun _ => ""))
      [point.mk 30 40, point.mk 90 40, point.mk 60 80] (point.mk 60 40) = 48 ∧
    totalDist (Env.mk Real.sqrt (fun _ => ""))
      [point.mk 30 40, point.mk 90 40, point.mk 60 80] = 100 ∧
    quality (Env.mk Real.sqrt (fun _ => ""))
      [point.mk 30 40, point.mk 90 40, point.mk 60 80] = fval.fin ((1 - 100 / 30 / 3) * 100) ∧
    quality (Env.mk Real.sqrt (fun _ => ""))
      [point.mk 30 40, point.mk 90 40, point.mk 60 80] ≠ fval.fin ((1 - 48 / 30 / 3) * 100) := by
  have hq := iso_quality (Env.mk Real.sqrt (fun _ => "")) sqrtSpec_real
  refine ⟨iso_allInCircle _ sqrtSpec_real, iso_center _ sqrtSpec_real,
    iso_radius _ sqrtSpec_real, iso_specTotalDist _ sqrtSpec_real,
    iso_totalDist _ sqrtSpec_real, ?_, ?_⟩
  · rw [hq]; norm_num
  · rw [hq]
    intro h
    have h1 := fval.fin.inj h
    norm_num at h1

/-- C12, refuted as stated: over the reals the isosceles triangle (30, 40), (90, 40), (60, 80)
has two different points and the quality -100 / 9, which is below 0. -/
theorem quality_negative :
    (point.mk (30 : ℝ) 40 ≠ point.mk 90 40) ∧
    quality (Env.mk Real.sqrt (fun _ => ""))
      [point.mk 30 40, point.mk 90 40, point.mk 60 80] = fval.fin (-100 / 9) ∧
    ¬ (0 : ℝ) ≤ -100 / 9 := by
  refine ⟨?_, iso_quality _ sqrtSpec_real, by norm_num⟩
  intro h
  have hx := congrArg point.X h
  norm_num at hx

/-- C12, amended: for every point list with two different points the quality is a finite
number (no division by zero occurs) and it is at most 100. -/
theorem quality_le_100 (E : Env F) (hE : SqrtSpec E.Sqrt) (pts : List (point F))
    (a b : point F) (ha : a ∈ pts) (hb : b ∈ pts) (hab : a ≠ b) :
    ∃ v : F, quality E pts = fval.fin v ∧ v ≤ 100 := by
  have hr := fitRadius_pos E hE pts a b ha hb hab
  have hlen : 0 < pts.length := List.length_pos_of_mem ha
  have hn : (0 : F) < (pts.length : F) := Nat.cast_pos.mpr hlen
  rw [quality_of_ne_zero E pts (ne_of_gt hr) (ne_of_gt hn)]
  split_ifs
  · exact ⟨100, rfl, le_refl _⟩
  · refine ⟨_, rfl, ?_⟩
    have h1 : 0 ≤ totalDist E pts / fitRadius E pts / (pts.length : F) :=
      div_nonneg (div_nonneg (totalDist_nonneg E hE pts) (le_of_lt hr)) (le_of_lt hn)
    linarith

/-- C12, amended, at a concrete input: over the reals, the quality of the isosceles triangle
(30, 40), (90, 40), (60, 80) is a finite number that is at most 100. -/
theorem quality_le_100_witness :
    SqrtSpec (Env.mk Real.sqrt (fun _ => "")).Sqrt ∧
    point.mk (30 : ℝ) 40 ≠ point.mk 90 40 ∧
    ∃ v : ℝ, quality (Env.mk Real.sqrt (fun _ => ""))
      [point.mk 30 40, point.mk 90 40, point.mk 60 80] = fval.fin v ∧ v ≤ 100 :=
  have hne : point.mk (30 : ℝ) 40 ≠ point.mk 90 40 := by
    intro h
    have hx := congrArg point.X h
    norm_num at hx
  ⟨sqrtSpec_real, hne,
    quality_le_100 (Env.mk Real.sqrt (fun _ => "")) sqrtSpec_real
      [point.mk 30 40, point.mk 90 40, point.mk 60 80] (point.mk 30 40) (point.mk 90 40)
      (by simp) (by simp) hne⟩

/-- C13, refuted as stated: over the reals, the containment test of the square (5, 5),
(-5, 5), (-5, -5), (5, -5) does not fail. -/
theorem square_containment_counterexample :
    ¬ (allInCircle (Env.mk Real.sqrt (fun _ => ""))
      [point.mk 5 5, point.mk (-5) 5, point.mk (-5) (-5), point.mk 5 (-5)] = false) := by
  rw [square_allInCircle _ sqrtSpec_real]
  simp

/-- C13, amended: for the square (5, 5), (-5, 5), (-5, -5), (5, -5) the fitted center is
(0, 0), the radius is half the diagonal from (5, 5) to (-5, -5), every corner is at
distance exactly the radius from the center, so the containment test succeeds and the
quality is set to 100 by the containment branch. -/
theorem square_containment (E : Env F) (hE : SqrtSpec E.Sqrt) :
    (circleFromPoints E [⟨5, 5⟩, ⟨-5, 5⟩, ⟨-5, -5⟩, ⟨5, -5⟩]).1 = ⟨0, 0⟩ ∧
    2 * (circleFromPoints E [⟨5, 5⟩, ⟨-5, 5⟩, ⟨-5, -5⟩, ⟨5, -5⟩]).2.1 =
      dist E 5 5 (-5) (-5) ∧
    (∀ p ∈ [point.mk (5 : F) 5, point.mk (-5) 5, point.mk (-5) (-5), point.mk 5 (-5)],
      dist E p.X p.Y 0 0 = (circleFromPoints E [⟨5, 5⟩, ⟨-5, 5⟩, ⟨-5, -5⟩, ⟨5, -5⟩]).2.1) ∧
    allInCircle E [⟨5, 5⟩, ⟨-5, 5⟩, ⟨-5, -5⟩, ⟨5, -5⟩] = true ∧
    quality E [⟨5, 5⟩, ⟨-5, 5⟩, ⟨-5, -5⟩, ⟨5, -5⟩] = fval.fin 100 := by
  have hc : (circleFromPoints E [⟨5, 5⟩, ⟨-5, 5⟩, ⟨-5, -5⟩, ⟨5, -5⟩]).1 = ⟨0, 0⟩ :=
    square_center E hE
  have hr : (circleFromPoints E [⟨5, 5⟩, ⟨-5, 5⟩, ⟨-5, -5⟩, ⟨5, -5⟩]).2.1 =
      E.Sqrt 200 / 2 := square_radius E hE
  have h02 : dist E 5 5 (-5) (-5) = E.Sqrt 200 := by unfold dist; norm_num
  have ha := square_allInCircle E hE
  refine ⟨hc, ?_, ?_, ha, ?_⟩
  · rw [hr, h02]; ring
  · intro p hp
    rw [hr, ← sqrt_50_eq E hE]
    simp only [List.mem_cons, List.mem_singleton, List.not_mem_nil, or_false] at hp
    rcases hp with rfl | rfl | rfl | rfl <;> (unfold dist; norm_num)
  · simp only [quality, ha, if_true]

/-- In exact arithmetic, for three collinear points (two or three of them may coincide)
`circleFromPoints` never returns a true third value together with a positive radius: the
end points of the fitted diameter are at distance exactly the radius from the center and
the other point is closer.  The `float64` program decides that tie by rounding and
behaves differently, see `collinear_float64_usable`. -/
theorem collinear_not_usable_exact (E : Env F) (hE : SqrtSpec E.Sqrt) (a b c : point F)
    (hcol : collinear a b c) :
    ¬ ((circleFromPoints E [a, b, c]).2.2 = true ∧ 0 < (circleFromPoints E [a, b, c]).2.1) := by
  rintro ⟨hred, hr⟩
  by_cases hsel : maxPair E [a, b, c] = ⟨0, ⟨0, 0⟩, ⟨0, 0⟩⟩
  · have h0 : (circleFromPoints E [a, b, c]).2.1 = 0 := by
      show fitRadius E [a, b, c] = 0
      unfold fitRadius
      rw [hsel]
      dsimp only
      rw [dist_self E hE, zero_div]
    rw [h0] at hr
    exact lt_irrefl _ hr
  · have ha := allInCircle_of_collinear E hE a b c hcol hsel
    have hq : (circleFromPoints E [a, b, c]).2.2 = false := by
      show fval.ltFin (quality E [a, b, c]) 50 = false
      unfold quality
      rw [if_pos ha]
      simp only [fval.ltFin]
      norm_num
    rw [hq] at hred
    exact absurd hred (by decide)

/-- C14: the code in `float64` at the collinear points (10, 0), (20, 0), (31.3, 0).  The
stored pair is (10, 0), (31.3, 0); the center is (20.65, 0) and the radius 10.65, both
rounded.  The end point (31.3, 0) of the diameter is at the computed distance
10.650000000000002 from the center, above the radius, so the containment test fails,
`totalDist` is 21.3, the quality is 33.3 and `circleFromPoints` returns a true third
value together with a positive radius. -/
theorem collinear_float64_usable :
    collinear (point.mk (10 : ℚ) 0) (point.mk 20 0) (point.mk (rnd (313 / 10)) 0) ∧
    rnd (313 / 10) = 8810166771043533 / 281474976710656 ∧
    (circleFromPoints64 axisTriple).1.X = 2906229134537523 / 140737488355328 ∧
    (circleFromPoints64 axisTriple).1.Y = 0 ∧
    (circleFromPoints64 axisTriple).2.1 = 5995417003936973 / 562949953421312 ∧
    dist64 (rnd (313 / 10)) 0 (circleFromPoints64 axisTriple).1.X
        (circleFromPoints64 axisTriple).1.Y = 2997708501968487 / 281474976710656 ∧
    dist64 (rnd (313 / 10)) 0 (circleFromPoints64 axisTriple).1.X
        (circleFromPoints64 axisTriple).1.Y > (circleFromPoints64 axisTriple).2.1 ∧
    allInCircle64 axisTriple = false ∧
    totalDist64 axisTriple = 5995417003936973 / 281474976710656 ∧
    (quality64 axisTriple).value = some (4691249611844267 / 140737488355328) ∧
    (circleFromPoints64 axisTriple).2.2 = true ∧
    0 < (circleFromPoints64 axisTriple).2.1 := by
  refine ⟨?_, ?_⟩
  · unfold collinear
    norm_num
  · decide!

/-- C19: in a reachable state, when an accepted `update` leaves at least three points in the
buffer, so that it calls `circleFromPoints`, the fitted radius is at least 5, hence
positive, and the quality is a finite number: no division by zero occurs. -/
theorem reachable_radius_ge (E : Env F) (g : game F) (hg : Reachable E g) (x y : F)
    (s n : Int) (hacc : (update E g x y s n).2 = none)
    (hlen : 3 ≤ (g.points ++ [point.mk x y]).length) :
    5 ≤ (circleFromPoints E (g.points ++ [point.mk x y])).2.1 ∧
    0 < (circleFromPoints E (g.points ++ [point.mk x y])).2.1 ∧
    (quality E (g.points ++ [point.mk x y])).isFinite = true := by
  have hr : Reachable E (update E g x y s n).1 := Reachable.update g x y s n hg
  have hsp := (reachable_inv E _ hr).1
  rw [update_none_points E g x y s n hacc] at hsp
  have h10 := maxDist_ge_of_spaced E _ hsp (by omega)
  have h2 := fitRadius_eq_of_pos E (g.points ++ [point.mk x y]) (by linarith)
  have h5 : 5 ≤ fitRadius E (g.points ++ [point.mk x y]) := by linarith
  have hn : (0 : F) < ((g.points ++ [point.mk x y]).length : F) :=
    Nat.cast_pos.mpr (by omega)
  have h0 : 0 < fitRadius E (g.points ++ [point.mk x y]) := by linarith
  refine ⟨h5, h0, ?_⟩
  rw [quality_of_ne_zero E _ (ne_of_gt h0) (ne_of_gt hn)]
  split_ifs <;> rfl

/-- C19 at a concrete input: over the reals, the third point of the right triangle session is
accepted and the fitted radius is at least 5. -/
theorem reachable_radius_ge_witness :
    Reachable (Env.mk Real.sqrt (fun _ => "")) (demo2 (Env.mk Real.sqrt (fun _ => ""))) ∧
    (update (Env.mk Real.sqrt (fun _ => "")) (demo2 (Env.mk Real.sqrt (fun _ => "")))
      30 40 3000 3000).2 = none ∧
    3 ≤ ((demo2 (Env.mk Real.sqrt (fun _ => ""))).points ++ [point.mk 30 40]).length ∧
    5 ≤ (circleFromPoints (Env.mk Real.sqrt (fun _ => ""))
      ((demo2 (Env.mk Real.sqrt (fun _ => ""))).points ++ [point.mk 30 40])).2.1 :=
  have hr : Reachable (Env.mk Real.sqrt (fun _ => ""))
      (demo2 (Env.mk Real.sqrt (fun _ => ""))) :=
    Reachable.update _ _ _ _ _ (Reachable.update _ _ _ _ _ (Reachable.init zeroGame))
  have hacc : (update (Env.mk Real.sqrt (fun _ => ""))
      (demo2 (Env.mk Real.sqrt (fun _ => ""))) 30 40 3000 3000).2 = none := by
    rw [demo3_step _ sqrtSpec_real]
  have hlen : 3 ≤ ((demo2 (Env.mk Real.sqrt (fun _ => ""))).points ++
      [point.mk 30 40]).length := by
    rw [demo2_eq _ sqrtSpec_real]
    decide
  ⟨hr, hacc, hlen, (reachable_radius_ge _ _ hr 30 40 3000 3000 hacc hlen).1⟩

/-- C13, amended, at a concrete input: over the reals, the containment test of the square
succeeds and its quality is 100. -/
theorem square_containment_witness :
    SqrtSpec (Env.mk Real.sqrt (fun _ => "")).Sqrt ∧
    allInCircle (Env.mk Real.sqrt (fun _ => ""))
      [point.mk 5 5, point.mk (-5) 5, point.mk (-5) (-5), point.mk 5 (-5)] = true ∧
    quality (Env.mk Real.sqrt (fun _ => ""))
      [point.mk 5 5, point.mk (-5) 5, point.mk (-5) (-5), point.mk 5 (-5)] = fval.fin 100 :=
  ⟨sqrtSpec_real,
    (square_containment (Env.mk Real.sqrt (fun _ => "")) sqrtSpec_real).2.2.2.1,
    (square_containment (Env.mk Real.sqrt (fun _ => "")) sqrtSpec_real).2.2.2.2⟩

/-- C17: `distToSegment p v w` is the smallest distance from `p` to a point of the closed
segment from `v` to `w`: it is at most the distance to every point `v + t (w - v)` with
`0 <= t <= 1`, it is the distance to one of them, and for `v = w` it is the distance to `v`. -/
theorem distToSegment_min (E : Env F) (hE : SqrtSpec E.Sqrt) (p v w : point F) :
    (∀ t : F, 0 ≤ t → t ≤ 1 →
      distToSegment E p v w ≤
        dist E p.X p.Y (v.X + t * (w.X - v.X)) (v.Y + t * (w.Y - v.Y))) ∧
    (∃ t : F, 0 ≤ t ∧ t ≤ 1 ∧
      distToSegment E p v w =
        dist E p.X p.Y (v.X + t * (w.X - v.X)) (v.Y + t * (w.Y - v.Y))) ∧
    (v = w → distToSegment E p v w = dist E p.X p.Y v.X v.Y) := by
  have hv0 : dist E p.X p.Y v.X v.Y =
      dist E p.X p.Y (v.X + 0 * (w.X - v.X)) (v.Y + 0 * (w.Y - v.Y)) := by
    rw [zero_mul, zero_mul, add_zero, add_zero]
  have hw1 : dist E p.X p.Y w.X w.Y =
      dist E p.X p.Y (v.X + 1 * (w.X - v.X)) (v.Y + 1 * (w.Y - v.Y)) := by
    rw [one_mul, one_mul, add_sub_cancel, add_sub_cancel]
  have hl := sq_add_sq_nonneg (w.X - v.X) (w.Y - v.Y)
  by_cases h0 : distSquared v.X v.Y w.X w.Y = 0
  · -- a segment of length zero
    have hx : w.X - v.X = 0 := by
      have h1 : (w.X - v.X) * (w.X - v.X) + (w.Y - v.Y) * (w.Y - v.Y) = 0 := h0
      have h2 : (w.X - v.X) * (w.X - v.X) = 0 := by
        nlinarith [mul_self_nonneg (w.X - v.X), mul_self_nonneg (w.Y - v.Y)]
      exact mul_self_eq_zero.mp h2
    have hy : w.Y - v.Y = 0 := by
      have h1 : (w.X - v.X) * (w.X - v.X) + (w.Y - v.Y) * (w.Y - v.Y) = 0 := h0
      have h2 : (w.Y - v.Y) * (w.Y - v.Y) = 0 := by
        nlinarith [mul_self_nonneg (w.X - v.X), mul_self_nonneg (w.Y - v.Y)]
      exact mul_self_eq_zero.mp h2
    have hd : distToSegment E p v w = dist E p.X p.Y v.X v.Y := by
      unfold distToSegment
      dsimp only
      rw [if_pos h0]
    refine ⟨fun t _ _ => ?_, ⟨0, le_refl _, zero_le_one, hd.trans hv0⟩, fun _ => hd⟩
    rw [hd, hx, hy, mul_zero, add_zero, add_zero]
  · have hlpos : (w.X - v.X) * (w.X - v.X) + (w.Y - v.Y) * (w.Y - v.Y) ≠ 0 := h0
    have hne : v ≠ w := by
      intro h
      apply h0
      rw [h]
      unfold distSquared
      simp
    have hT : ((p.X - v.X) * (w.X - v.X) + (p.Y - v.Y) * (w.Y - v.Y)) /
          ((w.X - v.X) * (w.X - v.X) + (w.Y - v.Y) * (w.Y - v.Y)) *
        ((w.X - v.X) * (w.X - v.X) + (w.Y - v.Y) * (w.Y - v.Y)) =
        (p.X - v.X) * (w.X - v.X) + (p.Y - v.Y) * (w.Y - v.Y) :=
      div_mul_cancel₀ _ hlpos
    by_cases hlo : ((p.X - v.X) * (w.X - v.X) + (p.Y - v.Y) * (w.Y - v.Y)) /
        distSquared v.X v.Y w.X w.Y < 0
    · have hd : distToSegment E p v w = dist E p.X p.Y v.X v.Y := by
        unfold distToSegment
        dsimp only
        rw [if_neg h0, if_pos hlo]
      refine ⟨fun t ht0 _ => ?_, ⟨0, le_refl _, zero_le_one, hd.trans hv0⟩,
        fun h => absurd h hne⟩
      rw [hd]
      exact sqrt_le_sqrt_of_spec hE (sq_add_sq_nonneg _ _)
        (seg_sq_lo p.X p.Y v.X v.Y w.X w.Y t _ hT hlo ht0)
    · by_cases hhi : ((p.X - v.X) * (w.X - v.X) + (p.Y - v.Y) * (w.Y - v.Y)) /
          distSquared v.X v.Y w.X w.Y > 1
      · have hd : distToSegment E p v w = dist E p.X p.Y w.X w.Y := by
          unfold distToSegment
          dsimp only
          rw [if_neg h0, if_neg hlo, if_pos hhi]
        refine ⟨fun t _ ht1 => ?_, ⟨1, zero_le_one, le_refl _, hd.trans hw1⟩,
          fun h => absurd h hne⟩
        rw [hd]
        exact sqrt_le_sqrt_of_spec hE (sq_add_sq_nonneg _ _)
          (seg_sq_hi p.X p.Y v.X v.Y w.X w.Y t _ hT hhi ht1)
      · have hd : distToSegment E p v w =
            dist E p.X p.Y
              (v.X + ((p.X - v.X) * (w.X - v.X) + (p.Y - v.Y) * (w.Y - v.Y)) /
                distSquared v.X v.Y w.X w.Y * (w.X - v.X))
              (v.Y + ((p.X - v.X) * (w.X - v.X) + (p.Y - v.Y) * (w.Y - v.Y)) /
                distSquared v.X v.Y w.X w.Y * (w.Y - v.Y)) := by
          unfold distToSegment
          dsimp only
          rw [if_neg h0, if_neg hlo, if_neg hhi]
        refine ⟨fun t _ _ => ?_, ⟨_, not_lt.mp hlo, not_lt.mp hhi, hd⟩,
          fun h => absurd h hne⟩
        rw [hd]
        exact sqrt_le_sqrt_of_spec hE (sq_add_sq_nonneg _ _)
          (seg_sq_mid p.X p.Y v.X v.Y w.X w.Y t _ hT)

/-- C17 at a concrete input: over the reals, the distance from (60, 40) to the segment from
(90, 40) to (60, 80) is at most its distance to the middle of that segment. -/
theorem distToSegment_min_witness :
    SqrtSpec (Env.mk Real.sqrt (fun _ => "")).Sqrt ∧
    distToSegment (Env.mk Real.sqrt (fun _ => "")) (point.mk 60 40) (point.mk 90 40)
        (point.mk 60 80) ≤
      dist (Env.mk Real.sqrt (fun _ => "")) 60 40 (90 + (1 / 2) * (60 - 90))
        (40 + (1 / 2) * (80 - 40)) :=
  ⟨sqrtSpec_real,
    (distToSegment_min (Env.mk Real.sqrt (fun _ => "")) sqrtSpec_real (point.mk 60 40)
      (point.mk 90 40) (point.mk 60 80)).1 (1 / 2) (by norm_num) (by norm_num)⟩

/-- C18: for a point list with two different points, the pair that `circleFromPoints` uses for
the center and the radius is `(points[i], points[j])` for an index pair `i < j` whose
distance is the largest pairwise distance of the list and which is the lexicographically
smallest (outer index `i` first, then `j`) among the index pairs at that distance: a later
pair at an equal distance does not replace it. -/
theorem maxPair_first (E : Env F) (hE : SqrtSpec E.Sqrt) (pts : List (point F))
    (u v : point F) (hu : u ∈ pts) (hv : v ∈ pts) (huv : u ≠ v) :
    ∃ (i j : Nat) (a b : point F), i < j ∧ pts[i]? = some a ∧ pts[j]? = some b ∧
      (circleFromPoints E pts).1 = point.mk ((a.X + b.X) / 2) ((a.Y + b.Y) / 2) ∧
      (circleFromPoints E pts).2.1 = dist E a.X a.Y b.X b.Y / 2 ∧
      (∀ (i' j' : Nat) (a' b' : point F), pts[i']? = some a' → pts[j']? = some b' →
        dist E a'.X a'.Y b'.X b'.Y ≤ dist E a.X a.Y b.X b.Y) ∧
      (∀ (i' j' : Nat) (a' b' : point F), i' < j' → pts[i']? = some a' → pts[j']? = some b' →
        dist E a'.X a'.Y b'.X b'.Y = dist E a.X a.Y b.X b.Y →
        (i < i' ∨ (i = i' ∧ j ≤ j'))) := by
  have hmax := dist_le_maxDist E hE pts
  rcases scanPairs_first E pts ⟨0, ⟨0, 0⟩, ⟨0, 0⟩⟩ with h | ⟨i, j, a, b, hij, ha, hb, h, _, hfirst⟩
  · exfalso
    have h1 := hmax u hu v hv
    have h2 := dist_pos_of_ne E hE u v huv
    change maxPair E pts = _ at h
    rw [h] at h1
    exact absurd h2 (not_lt.mpr h1)
  · change maxPair E pts = _ at h
    rw [h] at hmax
    refine ⟨i, j, a, b, hij, ha, hb, ?_, ?_, ?_, ?_⟩
    · show fitCenter E pts = _
      unfold fitCenter
      rw [h]
    · show fitRadius E pts = _
      unfold fitRadius
      rw [h]
    · intro i' j' a' b' ha' hb'
      exact hmax a' (List.getElem?_mem ha') b' (List.getElem?_mem hb')
    · intro i' j' a' b' hij' ha' hb' heq
      by_contra hn
      have hlex : i' < i ∨ (i' = i ∧ j' < j) := by omega
      have := hfirst i' j' a' b' hij' ha' hb' hlex
      rw [heq] at this
      exact lt_irrefl _ this

/-- C18 at a concrete input: over the reals, the center of the square (5, 5), (-5, 5),
(-5, -5), (5, -5), whose two diagonals tie, is the midpoint of two of its entries. -/
theorem maxPair_first_witness :
    SqrtSpec (Env.mk Real.sqrt (fun _ => "")).Sqrt ∧
    point.mk (5 : ℝ) 5 ≠ point.mk (-5) 5 ∧
    ∃ (i j : Nat) (a b : point ℝ), i < j ∧
      [point.mk (5 : ℝ) 5, point.mk (-5) 5, point.mk (-5) (-5), point.mk 5 (-5)][i]? = some a ∧
      [point.mk (5 : ℝ) 5, point.mk (-5) 5, point.mk (-5) (-5), point.mk 5 (-5)][j]? = some b ∧
      (circleFromPoints (Env.mk Real.sqrt (fun _ => ""))
        [point.mk 5 5, point.mk (-5) 5, point.mk (-5) (-5), point.mk 5 (-5)]).1 =
        point.mk ((a.X + b.X) / 2) ((a.Y + b.Y) / 2) :=
  have hne : point.mk (5 : ℝ) 5 ≠ point.mk (-5) 5 := by
    intro h
    have hx := congrArg point.X h
    norm_num at hx
  have h := maxPair_first (Env.mk Real.sqrt (fun _ => "")) sqrtSpec_real
    [point.mk 5 5, point.mk (-5) 5, point.mk (-5) (-5), point.mk 5 (-5)]
    (point.mk 5 5) (point.mk (-5) 5) (by simp) (by simp) hne
  ⟨sqrtSpec_real, hne,
    h.elim fun i hi => hi.elim fun j hj => hj.elim fun a ha => ha.elim fun b hb =>
      ⟨i, j, a, b, hb.1, hb.2.1, hb.2.2.1, hb.2.2.2.1⟩⟩

end fitter

end PerfectCircle
